import Mathlib

/-!
Verification development for the rhusics simulation core: a shallow embedding of
`src/ecs/physics/systems/linear_solver.rs` (linear dynamics solver) and
`src/collide/ecs/systems/spatial_collision.rs` (spatial collision orchestrator).

Entities are modelled as `Nat` (specs `Entity` ids are ordered opaque handles).
The scalar type `Real` is modelled as `ℚ`; the generic point/vector spaces are
instantiated one-dimensionally (a legitimate instance of the generic code, which
only uses vector-space operations).  Component storages (`ReadStorage` /
`WriteStorage`) are modelled as `Nat → Option value`; writes through `&mut`
references obtained from joins or `get_mut` can only update entries that are
present, never create them, which the embedding mirrors by point updates guarded
on presence.  Joins iterate a universe list of entity ids and skip an entity
unless every joined storage has an entry for it.
-/

set_option maxHeartbeats 1000000

namespace Rhusics

/-- Point update of a storage (the effect of writing through a `&mut` slot). -/
def updf {γ : Type} (f : Nat → Option γ) (k : Nat) (v : Option γ) : Nat → Option γ :=
  fun x => if x = k then v else f x

/-- Unwrap on an `Option` (Rust `.unwrap()`): `None` aborts the tick. -/
def unwrapE {γ : Type} : Option γ → Except Unit γ
  | some v => Except.ok v
  | none => Except.error ()

/-! ## Solver-side data model (`linear_solver.rs` and its imports) -/

/-- `BodyPose<P, R>` restricted to what the solver reads: position and rotation.
The rotation type is kept as a parameter `ρ`; the solver only clones it. -/
structure BodyPose (ρ : Type) where
  position : ℚ
  rotation : ρ
deriving DecidableEq

/-- `Velocity<L, A>`: linear part plus a generic angular slot (only cloned here). -/
structure Velocity (α : Type) where
  linear : ℚ
  angular : α
deriving DecidableEq

/-- `Mass<I>`: the solver only calls `inverse_mass()`; the inertia slot is unused. -/
structure Mass where
  inverseMass : ℚ
deriving DecidableEq

/-- Material parameters consulted during resolution (restitution, friction). -/
structure Material where
  restitution : ℚ
  friction : ℚ
deriving DecidableEq

/-- `RigidBody`: per-entity material parameters, read via `material()`. -/
structure RigidBody where
  material : Material
deriving DecidableEq

/-- `ForceAccumulator<F, T>`: accumulated linear force plus a generic torque slot.
`consume_force()` returns the force and resets it to zero. -/
structure ForceAccumulator (α : Type) where
  force : ℚ
  torque : α
deriving DecidableEq

/-- `ContactEvent<Entity, P>`: the two entity ids plus the contact data consumed
by the resolve function (contact normal and penetration depth). -/
structure ContactEvent where
  bodies : Nat × Nat
  normal : ℚ
  penetration : ℚ
deriving DecidableEq

/-- `ResolveData`: the per-body data gathered by `contact_resolution` and handed
to `linear_resolve_contact`. -/
structure ResolveData (ρ α : Type) where
  velocity : Option (Velocity α)
  pose : BodyPose ρ
  mass : Mass
  material : Material

/-- Modelled from the spec: the change set computed by `linear_resolve_contact`
(`physics` module, not under `src/`): "an impulse-based change set (velocity and
optionally position delta)". -/
structure ChangeSet where
  velocity : Option ℚ
  position : Option ℚ
deriving DecidableEq

/-- The resolve function `linear_resolve_contact` is imported by the solver from
the `physics` module (not under `src/`); the solver treats it as opaque, so the
embedding takes it as a parameter of this type. -/
def ResolveFn (ρ α : Type) : Type :=
  ContactEvent → ResolveData ρ α → ResolveData ρ α → ChangeSet × ChangeSet

/-- Modelled from the spec: `ChangeSet::apply` (`physics` module, not under
`src/`): "Apply the change set to each body's next-frame velocity and pose
slots".  It writes through the two `Option<&mut>` slots produced by `get_mut`,
so an absent slot necessarily stays absent. -/
def ChangeSet.apply {ρ α : Type} (cs : ChangeSet) (pose : Option (BodyPose ρ))
    (vel : Option (Velocity α)) : Option (BodyPose ρ) × Option (Velocity α) :=
  (match cs.position, pose with
   | some dp, some p => some { p with position := p.position + dp }
   | _, p => p,
   match cs.velocity, vel with
   | some dv, some v => some { v with linear := v.linear + dv }
   | _, v => v)

/-- The component storages and resources the solver system declares. -/
structure SolverState (ρ α : Type) where
  masses : Nat → Option Mass
  bodies : Nat → Option RigidBody
  velocities : Nat → Option (Velocity α)
  nextVelocities : Nat → Option (Velocity α)
  poses : Nat → Option (BodyPose ρ)
  nextPoses : Nat → Option (BodyPose ρ)
  forces : Nat → Option (ForceAccumulator α)

/-- Modelled from the spec: the contact event stream (`shrev::EventChannel`, an
external collaborator): an append-only log with per-consumer cursors; `events`
lists every event ever appended and `oldest` is the index of the oldest entry
still retained (entries before it have been overwritten). -/
structure EventChannel (ev : Type) where
  events : List ev
  oldest : Nat

/-- Modelled from the spec: `lossy_read`: reads everything appended since the
consumer's cursor; if the cursor lagged behind the retention window the dropped
entries are skipped and a diagnostic is reported (the `Bool`), not a failure.
Returns (surviving events, new cursor, loss diagnostic emitted). -/
def lossy_read {ev : Type} (ch : EventChannel ev) (cursor : Nat) :
    List ev × Nat × Bool :=
  if cursor < ch.oldest then (ch.events.drop ch.oldest, ch.events.length, true)
  else (ch.events.drop cursor, ch.events.length, false)

/-- The effective pose used for resolution: the next-frame pose when present,
else the current pose, whose absence is a fatal unwrap
(`next_poses.get(..).map(..).unwrap_or_else(|| poses.get(..).unwrap())`). -/
def effectivePose {ρ α : Type} (s : SolverState ρ α) (b : Nat) :
    Except Unit (BodyPose ρ) :=
  match s.nextPoses b with
  | some p => Except.ok p
  | none => unwrapE (s.poses b)

/-- Building one body's `ResolveData` inside `contact_resolution`: velocity is a
plain `get` (may be `None`), pose falls back from next-frame to current, and the
mass and material lookups are unwrapped (fatal when absent). -/
def resolveData {ρ α : Type} (s : SolverState ρ α) (b : Nat) :
    Except Unit (ResolveData ρ α) :=
  match effectivePose s b with
  | Except.error e => Except.error e
  | Except.ok p =>
    match unwrapE (s.masses b) with
    | Except.error e => Except.error e
    | Except.ok m =>
      match unwrapE ((s.bodies b).map RigidBody.material) with
      | Except.error e => Except.error e
      | Except.ok mat => Except.ok ⟨s.nextVelocities b, p, m, mat⟩

/-- `change_set.apply(next_poses.get_mut(b), next_velocities.get_mut(b))`:
the write-back through the two `Option<&mut>` slots of body `b`. -/
def applyTo {ρ α : Type} (s : SolverState ρ α) (b : Nat) (cs : ChangeSet) :
    SolverState ρ α :=
  let r := cs.apply (s.nextPoses b) (s.nextVelocities b)
  { s with nextPoses := updf s.nextPoses b r.1,
           nextVelocities := updf s.nextVelocities b r.2 }

/-- The body of the `contact_resolution` loop for a single drained event:
gather both bodies' resolve data (fatal unwraps on missing mass / rigid body /
pose), call the resolve function, apply both halves of the change set. -/
def resolveOne {ρ α : Type} (rf : ResolveFn ρ α) (c : ContactEvent)
    (s : SolverState ρ α) : Except Unit (SolverState ρ α) :=
  match resolveData s c.bodies.1 with
  | Except.error e => Except.error e
  | Except.ok rd0 =>
    match resolveData s c.bodies.2 with
    | Except.error e => Except.error e
    | Except.ok rd1 =>
      let cs := rf c rd0 rd1
      Except.ok (applyTo (applyTo s c.bodies.1 cs.1) c.bodies.2 cs.2)

/-- `contact_resolution`: process the drained events in order; a fatal unwrap
anywhere aborts the tick. -/
def contact_resolution {ρ α : Type} (rf : ResolveFn ρ α) :
    List ContactEvent → SolverState ρ α → Except Unit (SolverState ρ α)
  | [], s => Except.ok s
  | c :: cs, s =>
    match resolveOne rf c s with
    | Except.ok s1 => contact_resolution rf cs s1
    | Except.error e => Except.error e

/-- Loop body of the pose-promotion loop: an entity in the join of
`(next_poses, poses)` gets its current pose overwritten with the next-frame
value; an entity missing either component is skipped. -/
def promotePoseStep {ρ α : Type} (s : SolverState ρ α) (e : Nat) :
    SolverState ρ α :=
  match s.nextPoses e, s.poses e with
  | some np, some _ => { s with poses := updf s.poses e (some np) }
  | _, _ => s

/-- First loop of `update_current_frame`: for each entity in the join of
`(next_poses, poses)`, overwrite the current pose with the next-frame value. -/
def promotePoses {ρ α : Type} (el : List Nat) (s : SolverState ρ α) :
    SolverState ρ α :=
  el.foldl promotePoseStep s

/-- Loop body of the velocity-promotion loop. -/
def promoteVelStep {ρ α : Type} (s : SolverState ρ α) (e : Nat) :
    SolverState ρ α :=
  match s.nextVelocities e, s.velocities e with
  | some nv, some _ => { s with velocities := updf s.velocities e (some nv) }
  | _, _ => s

/-- Second loop of `update_current_frame`: for each entity in the join of
`(next_velocities, velocities)`, overwrite the current velocity. -/
def promoteVelocities {ρ α : Type} (el : List Nat) (s : SolverState ρ α) :
    SolverState ρ α :=
  el.foldl promoteVelStep s

/-- `update_current_frame`: pose promotion, then velocity promotion. -/
def update_current_frame {ρ α : Type} (el : List Nat) (s : SolverState ρ α) :
    SolverState ρ α :=
  promoteVelocities el (promotePoses el s)

/-- First loop of `compute_next_frame` (force integration): for each entity in
the join of `(next_velocities, forces, masses)`, consume the accumulated force
(`consume_force` returns the force and resets it to zero) and add
`force * inverse_mass * dt` to the next-frame linear velocity.  `forceStep` is
the loop body, `integrateForces` the loop. -/
def forceStep {ρ α : Type} (dt : ℚ) (s : SolverState ρ α) (e : Nat) :
    SolverState ρ α :=
  match s.nextVelocities e, s.forces e, s.masses e with
  | some nv, some f, some m =>
    let a := f.force * m.inverseMass
    let nl := nv.linear + a * dt
    { s with
      nextVelocities := updf s.nextVelocities e (some { nv with linear := nl }),
      forces := updf s.forces e (some { f with force := 0 }) }
  | _, _, _ => s

def integrateForces {ρ α : Type} (dt : ℚ) (el : List Nat) (s : SolverState ρ α) :
    SolverState ρ α :=
  el.foldl (forceStep dt) s

/-- Second loop of `compute_next_frame`: for each entity in the join of
`(next_velocities, poses, next_poses)`, write
`BodyPose::new(pose.position + next_velocity * dt, pose.rotation)` into the
next-frame pose.  `posStep` is the loop body, `integratePositions` the loop. -/
def posStep {ρ α : Type} (dt : ℚ) (s : SolverState ρ α) (e : Nat) :
    SolverState ρ α :=
  match s.nextVelocities e, s.poses e, s.nextPoses e with
  | some nv, some p, some _ =>
    { s with
      nextPoses :=
        updf s.nextPoses e (some ⟨p.position + nv.linear * dt, p.rotation⟩) }
  | _, _, _ => s

def integratePositions {ρ α : Type} (dt : ℚ) (el : List Nat)
    (s : SolverState ρ α) : SolverState ρ α :=
  el.foldl (posStep dt) s

/-- `compute_next_frame`: force integration, then next-frame positions. -/
def compute_next_frame {ρ α : Type} (dt : ℚ) (el : List Nat)
    (s : SolverState ρ α) : SolverState ρ α :=
  integratePositions dt el (integrateForces dt el s)

/-- One run of `LinearSolverSystem`: drain the contact events (lossy), resolve
contacts (fatal on missing components), promote next-frame state to current,
then integrate forces into the next frame.  Returns the final storages, the
advanced reader cursor and whether a loss diagnostic was emitted. -/
def solverRun {ρ α : Type} (rf : ResolveFn ρ α) (dt : ℚ) (el : List Nat)
    (ch : EventChannel ContactEvent) (cursor : Nat) (s : SolverState ρ α) :
    Except Unit (SolverState ρ α × Nat × Bool) :=
  let lr := lossy_read ch cursor
  match contact_resolution rf lr.1 s with
  | Except.ok s1 =>
    Except.ok (compute_next_frame dt el (update_current_frame el s1), lr.2.1, lr.2.2)
  | Except.error e => Except.error e

/-! ## Collision-side data model (`spatial_collision.rs` and its imports) -/

/-- The orchestrator reads a pose only through `Pose::dirty()` (and forwards it
to the narrow phase); the transform payload is irrelevant to it. -/
structure PoseC where
  dirty : Bool
deriving DecidableEq

/-- `CollisionShape`: the orchestrator only reads the cached `bound()`. -/
structure ShapeC (β : Type) where
  bound : β
deriving DecidableEq

/-- One stored value of the bounding-volume tree: an entity id and its stored
bound (`ContainerShapeWrapper<Entity, P>`). -/
structure TreeValue (β : Type) where
  id : Nat
  bound : β
deriving DecidableEq

/-- `CollisionStrategy` tag of a contact set. -/
inductive CollisionStrategy where
  | FullResolution
  | CollisionOnly
deriving DecidableEq

/-- Modelled from the spec: `ContactSet` (`collide` module, not under `src/`):
"one record per colliding pair: the two entity ids (canonical order: smaller
first), a collision strategy tag, and — when full — contact normal/penetration".
The manifold holds (normal, penetration depth) when present. -/
structure ContactSet where
  bodies : Nat × Nat
  strategy : CollisionStrategy
  manifold : Option (ℚ × ℚ)
deriving DecidableEq

/-- Modelled from the spec: `ContactSet::new_single(strategy, pair)` (`collide`
module, not under `src/`): a contact set for the pair with the given strategy
and no normal/depth manifold data. -/
def ContactSet.new_single (strategy : CollisionStrategy) (pr : Nat × Nat) :
    ContactSet :=
  ⟨pr, strategy, none⟩

/-- The entity/pose/shape world the orchestrator joins over. -/
structure CollideWorld (β : Type) where
  entities : List Nat
  poses : Nat → Option PoseC
  shapes : Nat → Option (ShapeC β)

/-- The join `(&*entities, &poses, &shapes)`: entity ids together with their
pose and shape, restricted to entities carrying both. -/
def joinRows {β : Type} (w : CollideWorld β) : List (Nat × PoseC × ShapeC β) :=
  w.entities.filterMap
    (fun e =>
      match w.poses e, w.shapes e with
      | some p, some sh => some (e, p, sh)
      | _, _ => none)

/-- Modelled from the spec: `DynamicBoundingVolumeTree::query_discrete`
(`collide::dbvt` module, not under `src/`): "a discrete-overlap query returning
every stored id whose bound intersects a given bound".  The tree's value set is
modelled as a list; `inter` is the (external) AABB intersection test. -/
def queryDiscrete {β : Type} (tree : List (TreeValue β)) (inter : β → β → Bool)
    (b : β) : List (TreeValue β) :=
  tree.filter (fun v => inter v.bound b)

/-- Strict lexicographic order on entity pairs (the `Ord` instance Rust uses
for `(Entity, Entity)` in `binary_search`). -/
def pairLt (a b : Nat × Nat) : Prop :=
  a.1 < b.1 ∨ (a.1 = b.1 ∧ a.2 < b.2)

instance (a b : Nat × Nat) : Decidable (pairLt a b) := by
  unfold pairLt; infer_instance

/-- Ordered search and insert into the sorted candidate vector: the effect of
`potentials.binary_search(&n)` followed by `insert` on `Err(pos)` and a skip on
`Ok(_)` (the vector is kept sorted, so ordered linear search and binary search
agree). -/
def insertPairSorted : List (Nat × Nat) → Nat × Nat → List (Nat × Nat)
  | [], n => [n]
  | x :: xs, n =>
    if pairLt n x then n :: x :: xs
    else if n = x then x :: xs
    else x :: insertPairSorted xs n

/-- Canonicalization `if entity < v.id { (entity, v.id) } else { (v.id, entity) }`. -/
def canonPair (a b : Nat) : Nat × Nat :=
  if a < b then (a, b) else (b, a)

/-- Inner loop of the default broad phase: for each tree value overlapping the
dirty entity's bound, skip self, canonicalize, and insert into the sorted
deduplicated candidate list. -/
def broadInner (e : Nat) (pots : List (Nat × Nat)) (hits : List (TreeValue (β := β))) :
    List (Nat × Nat) :=
  hits.foldl
    (fun pots v => if e ≠ v.id then insertPairSorted pots (canonPair e v.id) else pots)
    pots

/-- The default (index-driven) broad phase: for each joined entity whose pose is
dirty, query the tree with its shape's bound and insert the canonical pairs. -/
def defaultBroadPhase {β : Type} (w : CollideWorld β)
    (tree : List (TreeValue β)) (inter : β → β → Bool) : List (Nat × Nat) :=
  (joinRows w).foldl
    (fun pots row =>
      if row.2.1.dirty then broadInner row.1 pots (queryDiscrete tree inter row.2.2.bound)
      else pots)
    []

/-- The candidate pairs of one orchestrator run: the injected broad phase on the
tree's values when present, else the default index-driven algorithm. -/
def candidatePairs {β : Type}
    (broad : Option (List (TreeValue β) → List (Nat × Nat)))
    (w : CollideWorld β) (tree : List (TreeValue β)) (inter : β → β → Bool) :
    List (Nat × Nat) :=
  match broad with
  | some b => b tree
  | none => defaultBroadPhase w tree inter

/-- A narrow phase: `collide(left entity+shape+pose, right entity+shape+pose)`,
an injected strategy object (`collide::narrow`, not under `src/`), kept opaque. -/
def NarrowFn (β : Type) : Type :=
  Nat → ShapeC β → PoseC → Nat → ShapeC β → PoseC → Option ContactSet

/-- The narrow-phase loop over the candidate pairs: both entities' shape and
pose are unwrapped (fatal when absent); on `Some` the contact set is appended,
on `None` nothing is emitted. -/
def narrowPass {β : Type} (nf : NarrowFn β) (w : CollideWorld β) :
    List (Nat × Nat) → List ContactSet → Except Unit (List ContactSet)
  | [], acc => Except.ok acc
  | pr :: rest, acc =>
    match unwrapE (w.shapes pr.1) with
    | Except.error e => Except.error e
    | Except.ok lsh =>
      match unwrapE (w.shapes pr.2) with
      | Except.error e => Except.error e
      | Except.ok rsh =>
        match unwrapE (w.poses pr.1) with
        | Except.error e => Except.error e
        | Except.ok lp =>
          match unwrapE (w.poses pr.2) with
          | Except.error e => Except.error e
          | Except.ok rp =>
            match nf pr.1 lsh lp pr.2 rsh rp with
            | some cset => narrowPass nf w rest (acc ++ [cset])
            | none => narrowPass nf w rest acc

/-- One run of `SpatialCollisionSystem`: clear the contact buffer, compute the
candidate pairs (injected broad phase, reindexing the tree afterward, or the
default index-driven algorithm), then narrow phase when configured or one
`CollisionOnly` contact set per candidate otherwise.  `reindexFn` stands for
`DynamicBoundingVolumeTree::reindex_values` (`collide::dbvt`, not under `src/`),
kept opaque.  Returns the refilled contact buffer and the resulting tree. -/
def runSpatial {β : Type} (narrow : Option (NarrowFn β))
    (broad : Option (List (TreeValue β) → List (Nat × Nat)))
    (reindexFn : List (TreeValue β) → List (TreeValue β)) (inter : β → β → Bool)
    (w : CollideWorld β) (tree : List (TreeValue β))
    (contacts0 : List ContactSet) :
    Except Unit (List ContactSet × List (TreeValue β)) :=
  let contacts1 : List ContactSet := []
  let pots := candidatePairs broad w tree inter
  let tree1 := match broad with
    | some _ => reindexFn tree
    | none => tree
  match narrow with
  | some nf => (narrowPass nf w pots contacts1).map (fun cs => (cs, tree1))
  | none =>
    Except.ok
      (contacts1 ++ pots.map (fun pr => ContactSet.new_single CollisionStrategy.CollisionOnly pr),
       tree1)

/-! ## Helper lemmas: point updates -/

theorem updf_same {γ : Type} (f : Nat → Option γ) (k : Nat) (v : Option γ) :
    updf f k v k = v := by
  simp [updf]

theorem updf_other {γ : Type} (f : Nat → Option γ) (k x : Nat) (v : Option γ)
    (h : x ≠ k) : updf f k v x = f x := by
  simp [updf, h]

/-! ## Helper lemmas: the sorted candidate list (C1) -/

theorem pairLt_trans {a b c : Nat × Nat} (h1 : pairLt a b) (h2 : pairLt b c) :
    pairLt a c := by
  rcases h1 with h1 | ⟨h1, h1'⟩ <;> rcases h2 with h2 | ⟨h2, h2'⟩ <;>
    simp only [pairLt] <;> omega

theorem pairLt_irrefl (a : Nat × Nat) : ¬ pairLt a a := by
  simp [pairLt]

theorem pairLt_of_not {a b : Nat × Nat} (h1 : ¬ pairLt a b) (h2 : a ≠ b) :
    pairLt b a := by
  simp only [pairLt, not_or, not_and, not_lt] at h1 ⊢
  rcases Nat.lt_trichotomy b.1 a.1 with h | h | h
  · exact Or.inl h
  · refine Or.inr ⟨h, ?_⟩
    rcases Nat.lt_trichotomy b.2 a.2 with h' | h' | h'
    · exact h'
    · exact absurd (Prod.ext h.symm h'.symm) h2
    · exact absurd h' (not_lt.mpr (h1.2 h.symm))
  · exact absurd h (not_lt.mpr h1.1)

theorem pairLt_ne {a b : Nat × Nat} (h : pairLt a b) : a ≠ b := by
  rintro rfl; exact pairLt_irrefl a h

theorem mem_insertPairSorted {l : List (Nat × Nat)} {n m : Nat × Nat} :
    m ∈ insertPairSorted l n ↔ m = n ∨ m ∈ l := by
  induction l with
  | nil => simp [insertPairSorted]
  | cons x xs ih =>
    simp only [insertPairSorted]
    split
    · simp [or_comm, or_assoc, or_left_comm]
    · split
      · rename_i hne heq
        subst heq
        constructor
        · intro h; exact Or.inr h
        · rintro (rfl | h)
          · exact List.mem_cons_self _ _
          · exact h
      · simp only [List.mem_cons, ih]
        tauto

theorem self_mem_insertPairSorted (l : List (Nat × Nat)) (n : Nat × Nat) :
    n ∈ insertPairSorted l n :=
  mem_insertPairSorted.mpr (Or.inl rfl)

theorem pairwise_insertPairSorted {l : List (Nat × Nat)} {n : Nat × Nat}
    (h : l.Pairwise pairLt) : (insertPairSorted l n).Pairwise pairLt := by
  induction l with
  | nil => simp [insertPairSorted]
  | cons x xs ih =>
    rw [List.pairwise_cons] at h
    simp only [insertPairSorted]
    split
    · rename_i hlt
      refine List.pairwise_cons.mpr ⟨?_, List.pairwise_cons.mpr h⟩
      intro b hb
      rcases List.mem_cons.mp hb with rfl | hb
      · exact hlt
      · exact pairLt_trans hlt (h.1 b hb)
    · split
      · exact List.pairwise_cons.mpr h
      · rename_i hnlt hne
        refine List.pairwise_cons.mpr ⟨?_, ih h.2⟩
        intro b hb
        rcases mem_insertPairSorted.mp hb with rfl | hb
        · exact pairLt_of_not hnlt hne
        · exact h.1 b hb

theorem nodup_of_pairwise_pairLt {l : List (Nat × Nat)}
    (h : l.Pairwise pairLt) : l.Nodup :=
  h.imp (fun hl => pairLt_ne hl)

/-- Elements of the canonical pair inserted for distinct entities satisfy
`fst < snd`. -/
theorem canonPair_lt {a b : Nat} (h : a ≠ b) :
    (canonPair a b).1 < (canonPair a b).2 := by
  unfold canonPair
  split <;> omega

theorem canonPair_eq_min_max {a b : Nat} (h : a ≠ b) :
    canonPair a b = (min a b, max a b) := by
  unfold canonPair
  split <;> rename_i hc <;> simp [Prod.ext_iff] <;> omega

/-- Invariant preservation through the inner broad-phase fold. -/
theorem broadInner_inv {β : Type} (e : Nat) (hits : List (TreeValue β))
    {pots : List (Nat × Nat)} (hs : pots.Pairwise pairLt)
    (hc : ∀ p ∈ pots, p.1 < p.2) :
    (broadInner e pots hits).Pairwise pairLt ∧
      (∀ p ∈ broadInner e pots hits, p.1 < p.2) ∧
      (∀ p ∈ pots, p ∈ broadInner e pots hits) ∧
      (∀ v ∈ hits, e ≠ v.id → canonPair e v.id ∈ broadInner e pots hits) := by
  induction hits generalizing pots with
  | nil =>
    refine ⟨hs, hc, fun p hp => hp, ?_⟩
    intro v hv; cases hv
  | cons v vs ih =>
    by_cases hne : e ≠ v.id
    · have hstep : broadInner e pots (v :: vs) =
          broadInner e (insertPairSorted pots (canonPair e v.id)) vs := by
        simp [broadInner, List.foldl_cons, hne]
      have hs' : (insertPairSorted pots (canonPair e v.id)).Pairwise pairLt :=
        pairwise_insertPairSorted hs
      have hc' : ∀ p ∈ insertPairSorted pots (canonPair e v.id), p.1 < p.2 := by
        intro p hp
        rcases mem_insertPairSorted.mp hp with rfl | hp
        · exact canonPair_lt hne
        · exact hc p hp
      obtain ⟨i1, i2, i3, i4⟩ := ih hs' hc'
      rw [hstep]
      refine ⟨i1, i2, ?_, ?_⟩
      · intro p hp
        exact i3 p (mem_insertPairSorted.mpr (Or.inr hp))
      · intro u hu hu'
        rcases List.mem_cons.mp hu with rfl | hu
        · exact i3 _ (self_mem_insertPairSorted _ _)
        · exact i4 u hu hu'
    · push_neg at hne
      have hstep : broadInner e pots (v :: vs) = broadInner e pots vs := by
        simp [broadInner, List.foldl_cons, hne]
      obtain ⟨i1, i2, i3, i4⟩ := ih hs hc
      rw [hstep]
      refine ⟨i1, i2, i3, ?_⟩
      intro u hu hu'
      rcases List.mem_cons.mp hu with rfl | hu
      · exact absurd hne hu'
      · exact i4 u hu hu'

/-- Invariant preservation through the outer broad-phase fold. -/
theorem broadFold_inv {β : Type} (tree : List (TreeValue β))
    (inter : β → β → Bool) (rows : List (Nat × PoseC × ShapeC β))
    {pots : List (Nat × Nat)} (hs : pots.Pairwise pairLt)
    (hc : ∀ p ∈ pots, p.1 < p.2) :
    (rows.foldl
        (fun pots row =>
          if row.2.1.dirty then
            broadInner row.1 pots (queryDiscrete tree inter row.2.2.bound)
          else pots)
        pots).Pairwise pairLt ∧
      (∀ p ∈ rows.foldl
          (fun pots row =>
            if row.2.1.dirty then
              broadInner row.1 pots (queryDiscrete tree inter row.2.2.bound)
            else pots)
          pots, p.1 < p.2) ∧
      (∀ p ∈ pots, p ∈ rows.foldl
          (fun pots row =>
            if row.2.1.dirty then
              broadInner row.1 pots (queryDiscrete tree inter row.2.2.bound)
            else pots)
          pots) ∧
      (∀ row ∈ rows, row.2.1.dirty = true →
        ∀ v ∈ queryDiscrete tree inter row.2.2.bound, row.1 ≠ v.id →
          canonPair row.1 v.id ∈ rows.foldl
            (fun pots row =>
              if row.2.1.dirty then
                broadInner row.1 pots (queryDiscrete tree inter row.2.2.bound)
              else pots)
            pots) := by
  induction rows generalizing pots with
  | nil =>
    refine ⟨hs, hc, fun p hp => hp, ?_⟩
    intro row hrow; cases hrow
  | cons row rows ih =>
    by_cases hd : row.2.1.dirty = true
    · have hstep :
          (row :: rows).foldl
            (fun pots row =>
              if row.2.1.dirty then
                broadInner row.1 pots (queryDiscrete tree inter row.2.2.bound)
              else pots) pots =
          rows.foldl
            (fun pots row =>
              if row.2.1.dirty then
                broadInner row.1 pots (queryDiscrete tree inter row.2.2.bound)
              else pots)
            (broadInner row.1 pots (queryDiscrete tree inter row.2.2.bound)) := by
        simp [List.foldl_cons, hd]
      obtain ⟨b1, b2, b3, b4⟩ :=
        broadInner_inv row.1 (queryDiscrete tree inter row.2.2.bound) hs hc
      obtain ⟨i1, i2, i3, i4⟩ := ih b1 b2
      rw [hstep]
      refine ⟨i1, i2, fun p hp => i3 p (b3 p hp), ?_⟩
      intro r hr hrd v hv hne
      rcases List.mem_cons.mp hr with rfl | hr
      · exact i3 _ (b4 v hv hne)
      · exact i4 r hr hrd v hv hne
    · have hstep :
          (row :: rows).foldl
            (fun pots row =>
              if row.2.1.dirty then
                broadInner row.1 pots (queryDiscrete tree inter row.2.2.bound)
              else pots) pots =
          rows.foldl
            (fun pots row =>
              if row.2.1.dirty then
                broadInner row.1 pots (queryDiscrete tree inter row.2.2.bound)
              else pots) pots := by
        simp [List.foldl_cons, hd]
      obtain ⟨i1, i2, i3, i4⟩ := ih hs hc
      rw [hstep]
      refine ⟨i1, i2, i3, ?_⟩
      intro r hr hrd v hv hne
      rcases List.mem_cons.mp hr with rfl | hr
      · exact absurd hrd hd
      · exact i4 r hr hrd v hv hne

/-- A joined row exists for an entity carrying both a pose and a shape. -/
theorem mem_joinRows {β : Type} {w : CollideWorld β} {e : Nat} {p : PoseC}
    {sh : ShapeC β} (he : e ∈ w.entities) (hp : w.poses e = some p)
    (hsh : w.shapes e = some sh) : (e, p, sh) ∈ joinRows w := by
  unfold joinRows
  refine List.mem_filterMap.mpr ⟨e, he, ?_⟩
  rw [hp, hsh]

/-- A stored tree value whose bound passes the intersection test is returned by
the discrete query. -/
theorem mem_queryDiscrete {β : Type} {tree : List (TreeValue β)}
    {inter : β → β → Bool} {v : TreeValue β} {b : β} (hv : v ∈ tree)
    (hi : inter v.bound b = true) : v ∈ queryDiscrete tree inter b := by
  unfold queryDiscrete
  exact List.mem_filter.mpr ⟨hv, hi⟩

/-- Number of occurrences of a pair in the candidate list. -/
def occurrences : List (Nat × Nat) → Nat × Nat → Nat
  | [], _ => 0
  | x :: xs, p => (if x = p then 1 else 0) + occurrences xs p

theorem occurrences_eq_zero {l : List (Nat × Nat)} {p : Nat × Nat}
    (h : p ∉ l) : occurrences l p = 0 := by
  induction l with
  | nil => rfl
  | cons x xs ih =>
    have hxp : ¬ x = p := fun hh => h (hh ▸ List.mem_cons_self x xs)
    simp only [occurrences, if_neg hxp, Nat.zero_add]
    exact ih fun hm => h (List.mem_cons_of_mem _ hm)

theorem occurrences_le_one_of_nodup {l : List (Nat × Nat)} (h : l.Nodup)
    (p : Nat × Nat) : occurrences l p ≤ 1 := by
  induction l with
  | nil => exact Nat.zero_le 1
  | cons x xs ih =>
    rcases List.nodup_cons.mp h with ⟨hx, hxs⟩
    by_cases hxp : x = p
    · subst hxp
      simp [occurrences, occurrences_eq_zero hx]
    · simp only [occurrences, if_neg hxp, Nat.zero_add]
      exact ih hxs

theorem occurrences_eq_one_of_nodup {l : List (Nat × Nat)} {p : Nat × Nat}
    (h : l.Nodup) (hp : p ∈ l) : occurrences l p = 1 := by
  induction l with
  | nil => cases hp
  | cons x xs ih =>
    rcases List.nodup_cons.mp h with ⟨hx, hxs⟩
    by_cases hxp : x = p
    · subst hxp
      simp [occurrences, occurrences_eq_zero hx]
    · rcases List.mem_cons.mp hp with rfl | hp
      · exact absurd rfl hxp
      · simp only [occurrences, if_neg hxp, Nat.zero_add]
        exact ih hxs hp

/-! ## Claim C1 -/

/-- C1: every run of the default (index-driven) broad phase produces a
candidate list with no self-pair and no duplicates, every pair canonicalized
with the lower-ordered entity first, and for any dirty entity `a` (carrying a
pose and a shape) whose bound passes the intersection test against the stored
bound of a different tree entity `v`, the canonical pair
`(min a v.id, max a v.id)` appears exactly once. -/
theorem C1_default_broad_phase {β : Type} (w : CollideWorld β)
    (tree : List (TreeValue β)) (inter : β → β → Bool) :
    (∀ p ∈ defaultBroadPhase w tree inter, p.1 < p.2) ∧
    (∀ p : Nat × Nat, occurrences (defaultBroadPhase w tree inter) p ≤ 1) ∧
    (∀ a ∈ w.entities, ∀ pa : PoseC, ∀ sha : ShapeC β,
      w.poses a = some pa → pa.dirty = true → w.shapes a = some sha →
      ∀ v ∈ tree, a ≠ v.id → inter v.bound sha.bound = true →
      occurrences (defaultBroadPhase w tree inter) (min a v.id, max a v.id) = 1) := by
  obtain ⟨h1, h2, _, h4⟩ :=
    @broadFold_inv β tree inter (joinRows w) [] (List.Pairwise.nil)
      (by intro p hp; cases hp)
  have hnd : (defaultBroadPhase w tree inter).Nodup :=
    nodup_of_pairwise_pairLt h1
  refine ⟨h2, ?_, ?_⟩
  · intro p
    exact occurrences_le_one_of_nodup hnd p
  · intro a ha pa sha hpa hdirty hsha v hv hne hi
    have hrow : (a, pa, sha) ∈ joinRows w := mem_joinRows ha hpa hsha
    have hq : v ∈ queryDiscrete tree inter sha.bound := mem_queryDiscrete hv hi
    have hmem : canonPair a v.id ∈ defaultBroadPhase w tree inter :=
      h4 (a, pa, sha) hrow hdirty v hq hne
    rw [canonPair_eq_min_max hne] at hmem
    exact occurrences_eq_one_of_nodup hnd hmem

/-- C1 witness: a concrete world with entity 1 dirty and entity 2 stored in the
tree with an overlapping bound yields the pair (1, 2) exactly once. -/
theorem C1_default_broad_phase_witness :
    occurrences
      (defaultBroadPhase (β := Nat)
        ⟨[1, 2],
         fun e => if e = 1 then some ⟨true⟩ else if e = 2 then some ⟨false⟩ else none,
         fun e => if e ≤ 2 then some ⟨0⟩ else none⟩
        [⟨1, 0⟩, ⟨2, 0⟩] (fun _ _ => true))
      (min 1 2, max 1 2) = 1 :=
  (C1_default_broad_phase
      ⟨[1, 2],
       fun e => if e = 1 then some ⟨true⟩ else if e = 2 then some ⟨false⟩ else none,
       fun e => if e ≤ 2 then some ⟨0⟩ else none⟩
      [⟨1, 0⟩, ⟨2, 0⟩] (fun _ _ => true)).2.2
    1 (by decide) ⟨true⟩ ⟨0⟩ rfl rfl rfl ⟨2, 0⟩ (by decide) (by decide) rfl

/-! ## Claim C2 -/

/-- C2 counterexample: with no injected broad phase the run returns the tree
exactly as it was: for a reindex function that visibly changes the tree, the
default path's resulting tree differs from the reindexed tree, so the reindex
operation was not invoked. -/
theorem C2_no_reindex_counterexample :
    runSpatial (β := Nat) none none (fun t => ⟨7, 7⟩ :: t) (fun _ _ => true)
        ⟨[], fun _ => none, fun _ => none⟩ [] [] = Except.ok ([], []) ∧
    (fun t : List (TreeValue Nat) => ⟨7, 7⟩ :: t) [] ≠ [] := by
  exact ⟨rfl, by decide⟩

/-- C2 amended: when no broad phase is injected the run executes the default
index-driven broad-phase algorithm and leaves the bounding-volume tree
unchanged (no reindex); the reindex operation is invoked exactly in the
injected-broad-phase path. -/
theorem C2_reindex_only_injected {β : Type} (narrow : Option (NarrowFn β))
    (reindexFn : List (TreeValue β) → List (TreeValue β)) (inter : β → β → Bool)
    (w : CollideWorld β) (tree : List (TreeValue β)) (c0 : List ContactSet) :
    candidatePairs none w tree inter = defaultBroadPhase w tree inter ∧
    (∀ out, runSpatial narrow none reindexFn inter w tree c0 = Except.ok out →
      out.2 = tree) ∧
    (∀ bf out,
      runSpatial narrow (some bf) reindexFn inter w tree c0 = Except.ok out →
      out.2 = reindexFn tree) := by
  refine ⟨rfl, ?_, ?_⟩
  · intro out hout
    cases narrow with
    | none =>
      simp only [runSpatial] at hout
      cases hout
      rfl
    | some nf =>
      simp only [runSpatial] at hout
      cases hnp : narrowPass nf w (candidatePairs none w tree inter) [] with
      | ok cs =>
        rw [hnp] at hout
        simp only [Except.map] at hout
        cases hout
        rfl
      | error e =>
        rw [hnp] at hout
        simp only [Except.map] at hout
        cases hout
  · intro bf out hout
    cases narrow with
    | none =>
      simp only [runSpatial] at hout
      cases hout
      rfl
    | some nf =>
      simp only [runSpatial] at hout
      cases hnp : narrowPass nf w (candidatePairs (some bf) w tree inter) [] with
      | ok cs =>
        rw [hnp] at hout
        simp only [Except.map] at hout
        cases hout
        rfl
      | error e =>
        rw [hnp] at hout
        simp only [Except.map] at hout
        cases hout

/-- C2 amended witness: with an injected broad phase the resulting tree is the
reindexed tree. -/
theorem C2_reindex_only_injected_witness :
    ((([] : List ContactSet), ([⟨1, 0⟩, ⟨9, 9⟩] : List (TreeValue Nat))).2 =
      (fun t : List (TreeValue Nat) => t ++ [(⟨9, 9⟩ : TreeValue Nat)])
        [(⟨1, 0⟩ : TreeValue Nat)]) :=
  (C2_reindex_only_injected (β := Nat) none
      (fun t => t ++ [(⟨9, 9⟩ : TreeValue Nat)]) (fun _ _ => true)
      ⟨[], fun _ => none, fun _ => none⟩ [(⟨1, 0⟩ : TreeValue Nat)] []).2.2
    (fun _ => []) ([], [⟨1, 0⟩, ⟨9, 9⟩]) (by rfl)

/-! ## Claim C5 -/

/-- C5: with no narrow phase configured, one run first clears the contact
buffer (the result is independent of the buffer's prior content) and then
appends, in candidate-list order, exactly one `CollisionOnly` contact set with
no manifold data per candidate pair, and nothing else. -/
theorem C5_no_narrow_collision_only {β : Type}
    (broad : Option (List (TreeValue β) → List (Nat × Nat)))
    (reindexFn : List (TreeValue β) → List (TreeValue β)) (inter : β → β → Bool)
    (w : CollideWorld β) (tree : List (TreeValue β))
    (c0 c0' : List ContactSet) :
    (runSpatial none broad reindexFn inter w tree c0 =
      runSpatial none broad reindexFn inter w tree c0') ∧
    (∀ out, runSpatial none broad reindexFn inter w tree c0 = Except.ok out →
      out.1 = (candidatePairs broad w tree inter).map
          (fun pr => ContactSet.new_single CollisionStrategy.CollisionOnly pr) ∧
      out.1.length = (candidatePairs broad w tree inter).length ∧
      ∀ cs ∈ out.1,
        cs.strategy = CollisionStrategy.CollisionOnly ∧ cs.manifold = none) := by
  refine ⟨rfl, ?_⟩
  intro out hout
  simp only [runSpatial] at hout
  cases hout
  refine ⟨by simp, by simp, ?_⟩
  intro cs hcs
  simp only [List.nil_append, List.mem_map] at hcs
  obtain ⟨pr, _, rfl⟩ := hcs
  exact ⟨rfl, rfl⟩

/-- C5 witness: a concrete run with one candidate pair from an injected broad
phase yields exactly that one `CollisionOnly` entry. -/
theorem C5_no_narrow_collision_only_witness :
    ([ContactSet.new_single CollisionStrategy.CollisionOnly (1, 2)],
        ([] : List (TreeValue Nat))).1 =
      (candidatePairs (some fun _ => [(1, 2)])
          (⟨[], fun _ => none, fun _ => none⟩ : CollideWorld Nat) [] fun _ _ => true).map
        (fun pr => ContactSet.new_single CollisionStrategy.CollisionOnly pr) :=
  ((C5_no_narrow_collision_only (β := Nat) (some fun _ => [(1, 2)]) (fun t => t)
        (fun _ _ => true) ⟨[], fun _ => none, fun _ => none⟩ [] []
        [ContactSet.new_single CollisionStrategy.FullResolution (3, 4)]).2
      ([ContactSet.new_single CollisionStrategy.CollisionOnly (1, 2)], [])
      (by rfl)).1

/-! ## Component-presence predicates and abort characterizations -/

/-- A candidate entity has the components the narrow-phase path unwraps. -/
def candOk {β : Type} (w : CollideWorld β) (e : Nat) : Bool :=
  (w.shapes e).isSome && (w.poses e).isSome

/-- A contacted body has what `contact_resolution` unwraps: a resolvable pose
(next-frame or current), a mass, and a rigid body. -/
def bodyOk {ρ α : Type} (s : SolverState ρ α) (b : Nat) : Bool :=
  ((s.nextPoses b).isSome || (s.poses b).isSome) && (s.masses b).isSome &&
    (s.bodies b).isSome

/-- Both bodies of a contact event are resolvable. -/
def eventOk {ρ α : Type} (s : SolverState ρ α) (c : ContactEvent) : Bool :=
  bodyOk s c.bodies.1 && bodyOk s c.bodies.2

theorem narrowPass_ok_of_all {β : Type} (nf : NarrowFn β) (w : CollideWorld β)
    (pots : List (Nat × Nat)) (acc : List ContactSet)
    (h : ∀ pr ∈ pots, candOk w pr.1 = true ∧ candOk w pr.2 = true) :
    ∃ cs, narrowPass nf w pots acc = Except.ok cs := by
  induction pots generalizing acc with
  | nil => exact ⟨acc, rfl⟩
  | cons pr rest ih =>
    obtain ⟨h1, h2⟩ := h pr (List.mem_cons_self _ _)
    simp only [candOk, Bool.and_eq_true, Option.isSome_iff_exists] at h1 h2
    obtain ⟨⟨sh1, hsh1⟩, p1, hp1⟩ := h1
    obtain ⟨⟨sh2, hsh2⟩, p2, hp2⟩ := h2
    have hrest : ∀ pr ∈ rest, candOk w pr.1 = true ∧ candOk w pr.2 = true :=
      fun pr hpr => h pr (List.mem_cons_of_mem _ hpr)
    simp only [narrowPass, hsh1, hsh2, hp1, hp2, unwrapE]
    cases nf pr.1 sh1 p1 pr.2 sh2 p2 with
    | some cset => exact ih (acc ++ [cset]) hrest
    | none => exact ih acc hrest

theorem narrowPass_error_of_missing {β : Type} (nf : NarrowFn β)
    (w : CollideWorld β) (pots : List (Nat × Nat)) (acc : List ContactSet)
    (pr : Nat × Nat) (hpr : pr ∈ pots)
    (h : ¬(candOk w pr.1 = true ∧ candOk w pr.2 = true)) :
    narrowPass nf w pots acc = Except.error () := by
  induction pots generalizing acc with
  | nil => cases hpr
  | cons q rest ih =>
    rcases List.mem_cons.mp hpr with rfl | hpr
    · simp only [narrowPass]
      rcases hsh1 : w.shapes pr.1 with _ | sh1 <;>
        rcases hsh2 : w.shapes pr.2 with _ | sh2 <;>
          rcases hp1 : w.poses pr.1 with _ | p1 <;>
            rcases hp2 : w.poses pr.2 with _ | p2 <;>
              simp_all [unwrapE, candOk]
    · simp only [narrowPass]
      cases unwrapE (w.shapes q.1) with
      | error e => rfl
      | ok sh1 =>
        dsimp only
        cases unwrapE (w.shapes q.2) with
        | error e => rfl
        | ok sh2 =>
          dsimp only
          cases unwrapE (w.poses q.1) with
          | error e => rfl
          | ok p1 =>
            dsimp only
            cases unwrapE (w.poses q.2) with
            | error e => rfl
            | ok p2 =>
              dsimp only
              cases nf q.1 sh1 p1 q.2 sh2 p2 with
              | some cset => exact ih (acc ++ [cset]) hpr
              | none => exact ih acc hpr

/-- Applying a change set preserves presence of the pose slot. -/
theorem apply_fst_isSome {ρ α : Type} (cs : ChangeSet) (pose : Option (BodyPose ρ))
    (vel : Option (Velocity α)) : ((cs.apply pose vel).1).isSome = pose.isSome := by
  rcases cs with ⟨cv, cp⟩
  cases cp <;> cases pose <;> rfl

/-- Applying a change set preserves presence of the velocity slot. -/
theorem apply_snd_isSome {ρ α : Type} (cs : ChangeSet) (pose : Option (BodyPose ρ))
    (vel : Option (Velocity α)) : ((cs.apply pose vel).2).isSome = vel.isSome := by
  rcases cs with ⟨cv, cp⟩
  cases cv <;> cases vel <;> rfl

theorem applyTo_masses {ρ α : Type} (s : SolverState ρ α) (b : Nat)
    (cs : ChangeSet) : (applyTo s b cs).masses = s.masses := rfl

theorem applyTo_bodies {ρ α : Type} (s : SolverState ρ α) (b : Nat)
    (cs : ChangeSet) : (applyTo s b cs).bodies = s.bodies := rfl

theorem applyTo_poses {ρ α : Type} (s : SolverState ρ α) (b : Nat)
    (cs : ChangeSet) : (applyTo s b cs).poses = s.poses := rfl

theorem applyTo_velocities {ρ α : Type} (s : SolverState ρ α) (b : Nat)
    (cs : ChangeSet) : (applyTo s b cs).velocities = s.velocities := rfl

theorem applyTo_forces {ρ α : Type} (s : SolverState ρ α) (b : Nat)
    (cs : ChangeSet) : (applyTo s b cs).forces = s.forces := rfl

theorem applyTo_nextPoses_isSome {ρ α : Type} (s : SolverState ρ α) (b : Nat)
    (cs : ChangeSet) (k : Nat) :
    ((applyTo s b cs).nextPoses k).isSome = (s.nextPoses k).isSome := by
  by_cases hk : k = b
  · subst hk
    simp [applyTo, updf, apply_fst_isSome]
  · simp [applyTo, updf, hk]

theorem applyTo_nextVelocities_isSome {ρ α : Type} (s : SolverState ρ α)
    (b : Nat) (cs : ChangeSet) (k : Nat) :
    ((applyTo s b cs).nextVelocities k).isSome = (s.nextVelocities k).isSome := by
  by_cases hk : k = b
  · subst hk
    simp [applyTo, updf, apply_snd_isSome]
  · simp [applyTo, updf, hk]

/-- The resolve-data lookups for a body succeed exactly when the body has a
resolvable pose, a mass, and a rigid body. -/
theorem resolveData_isOk {ρ α : Type} (s : SolverState ρ α) (b : Nat) :
    (∃ rd, resolveData s b = Except.ok rd) ↔ bodyOk s b = true := by
  cases hnp : s.nextPoses b <;> cases hp : s.poses b <;>
    cases hm : s.masses b <;> cases hb : s.bodies b <;>
      simp [resolveData, effectivePose, unwrapE, bodyOk, hnp, hp, hm, hb]

/-- The resolve-data lookups abort when a required component is missing. -/
theorem resolveData_isErr {ρ α : Type} (s : SolverState ρ α) (b : Nat)
    (h : bodyOk s b = false) : resolveData s b = Except.error () := by
  cases hr : resolveData s b with
  | error e => cases e; rfl
  | ok rd =>
    have : bodyOk s b = true := (resolveData_isOk s b).mp ⟨rd, hr⟩
    rw [this] at h
    cases h

/-- Shape of a successful single-event resolution: the state is the two
successive slot write-backs, and the untouched storages are preserved, as is
presence of the next-frame slots. -/
theorem resolveOne_ok_state {ρ α : Type} {rf : ResolveFn ρ α} {c : ContactEvent}
    {s s1 : SolverState ρ α} (h : resolveOne rf c s = Except.ok s1) :
    s1.masses = s.masses ∧ s1.bodies = s.bodies ∧ s1.poses = s.poses ∧
    s1.velocities = s.velocities ∧ s1.forces = s.forces ∧
    (∀ k, (s1.nextPoses k).isSome = (s.nextPoses k).isSome) ∧
    (∀ k, (s1.nextVelocities k).isSome = (s.nextVelocities k).isSome) := by
  unfold resolveOne at h
  cases h0 : resolveData s c.bodies.1 with
  | error e => rw [h0] at h; cases h
  | ok rd0 =>
    rw [h0] at h
    dsimp only at h
    cases h1 : resolveData s c.bodies.2 with
    | error e => rw [h1] at h; cases h
    | ok rd1 =>
      rw [h1] at h
      dsimp only at h
      injection h with h2
      subst h2
      refine ⟨rfl, rfl, rfl, rfl, rfl, ?_, ?_⟩
      · intro k
        rw [applyTo_nextPoses_isSome, applyTo_nextPoses_isSome]
      · intro k
        rw [applyTo_nextVelocities_isSome, applyTo_nextVelocities_isSome]

/-- A single event resolves successfully exactly when both bodies carry the
required components. -/
theorem resolveOne_isOk {ρ α : Type} (rf : ResolveFn ρ α) (c : ContactEvent)
    (s : SolverState ρ α) :
    (∃ s1, resolveOne rf c s = Except.ok s1) ↔ eventOk s c = true := by
  constructor
  · rintro ⟨s1, h⟩
    unfold resolveOne at h
    cases h0 : resolveData s c.bodies.1 with
    | error e => rw [h0] at h; cases h
    | ok rd0 =>
      rw [h0] at h
      dsimp only at h
      cases h1 : resolveData s c.bodies.2 with
      | error e => rw [h1] at h; cases h
      | ok rd1 =>
        have hb0 : bodyOk s c.bodies.1 = true :=
          (resolveData_isOk s c.bodies.1).mp ⟨rd0, h0⟩
        have hb1 : bodyOk s c.bodies.2 = true :=
          (resolveData_isOk s c.bodies.2).mp ⟨rd1, h1⟩
        simp [eventOk, hb0, hb1]
  · intro h
    simp only [eventOk, Bool.and_eq_true] at h
    obtain ⟨rd0, h0⟩ := (resolveData_isOk s c.bodies.1).mpr h.1
    obtain ⟨rd1, h1⟩ := (resolveData_isOk s c.bodies.2).mpr h.2
    refine ⟨applyTo (applyTo s c.bodies.1 (rf c rd0 rd1).1) c.bodies.2 (rf c rd0 rd1).2, ?_⟩
    unfold resolveOne
    rw [h0]
    dsimp only
    rw [h1]

/-- A single event with a missing required component aborts. -/
theorem resolveOne_isErr {ρ α : Type} (rf : ResolveFn ρ α) (c : ContactEvent)
    (s : SolverState ρ α) (h : eventOk s c = false) :
    resolveOne rf c s = Except.error () := by
  cases hr : resolveOne rf c s with
  | error e => cases e; rfl
  | ok s1 =>
    have : eventOk s c = true := (resolveOne_isOk rf c s).mp ⟨s1, hr⟩
    rw [this] at h
    cases h

/-- Resolvability of an event is invariant under resolving another event. -/
theorem resolveOne_preserves_eventOk {ρ α : Type} {rf : ResolveFn ρ α}
    {c : ContactEvent} {s s1 : SolverState ρ α}
    (h : resolveOne rf c s = Except.ok s1) (c' : ContactEvent) :
    eventOk s1 c' = eventOk s c' := by
  obtain ⟨hm, hb, hp, _, _, hnp, _⟩ := resolveOne_ok_state h
  simp [eventOk, bodyOk, hm, hb, hp, hnp]

/-- Contact resolution preserves the storages it does not write and the
presence of next-frame slots. -/
theorem contact_resolution_preserves {ρ α : Type} {rf : ResolveFn ρ α}
    {evs : List ContactEvent} {s s' : SolverState ρ α}
    (h : contact_resolution rf evs s = Except.ok s') :
    s'.masses = s.masses ∧ s'.bodies = s.bodies ∧ s'.poses = s.poses ∧
    s'.velocities = s.velocities ∧ s'.forces = s.forces ∧
    (∀ k, (s'.nextPoses k).isSome = (s.nextPoses k).isSome) ∧
    (∀ k, (s'.nextVelocities k).isSome = (s.nextVelocities k).isSome) := by
  induction evs generalizing s with
  | nil =>
    simp only [contact_resolution] at h
    injection h with h2
    subst h2
    exact ⟨rfl, rfl, rfl, rfl, rfl, fun k => rfl, fun k => rfl⟩
  | cons c cs ih =>
    simp only [contact_resolution] at h
    cases h0 : resolveOne rf c s with
    | error e => rw [h0] at h; cases h
    | ok s1 =>
      rw [h0] at h
      dsimp only at h
      obtain ⟨a1, a2, a3, a4, a5, a6, a7⟩ := resolveOne_ok_state h0
      obtain ⟨b1, b2, b3, b4, b5, b6, b7⟩ := ih h
      exact ⟨b1.trans a1, b2.trans a2, b3.trans a3, b4.trans a4, b5.trans a5,
        fun k => (b6 k).trans (a6 k), fun k => (b7 k).trans (a7 k)⟩

/-- Contact resolution succeeds when every drained event's bodies carry the
required components. -/
theorem contact_resolution_ok {ρ α : Type} (rf : ResolveFn ρ α)
    (evs : List ContactEvent) (s : SolverState ρ α)
    (h : ∀ c ∈ evs, eventOk s c = true) :
    ∃ s', contact_resolution rf evs s = Except.ok s' := by
  induction evs generalizing s with
  | nil => exact ⟨s, rfl⟩
  | cons c cs ih =>
    obtain ⟨s1, h0⟩ :=
      (resolveOne_isOk rf c s).mpr (h c (List.mem_cons_self _ _))
    have hrest : ∀ c' ∈ cs, eventOk s1 c' = true := by
      intro c' hc'
      rw [resolveOne_preserves_eventOk h0 c']
      exact h c' (List.mem_cons_of_mem _ hc')
    obtain ⟨s', hs'⟩ := ih s1 hrest
    refine ⟨s', ?_⟩
    simp only [contact_resolution]
    rw [h0]
    dsimp only
    exact hs'

/-- Contact resolution aborts when some drained event's body lacks a required
component. -/
theorem contact_resolution_err {ρ α : Type} (rf : ResolveFn ρ α)
    (evs : List ContactEvent) (s : SolverState ρ α) (c : ContactEvent)
    (hc : c ∈ evs) (h : eventOk s c = false) :
    contact_resolution rf evs s = Except.error () := by
  induction evs generalizing s with
  | nil => cases hc
  | cons c0 cs ih =>
    simp only [contact_resolution]
    rcases List.mem_cons.mp hc with rfl | hc
    · rw [resolveOne_isErr rf c s h]
    · cases h0 : resolveOne rf c0 s with
      | error e => cases e; rfl
      | ok s1 =>
        dsimp only
        exact ih s1 hc ((resolveOne_preserves_eventOk h0 c).trans h)

/-! ## Loop lemmas: force integration -/

theorem forceStep_untouched {ρ α : Type} (dt : ℚ) (s : SolverState ρ α) (e : Nat) :
    (forceStep dt s e).poses = s.poses ∧
    (forceStep dt s e).nextPoses = s.nextPoses ∧
    (forceStep dt s e).velocities = s.velocities ∧
    (forceStep dt s e).masses = s.masses ∧
    (forceStep dt s e).bodies = s.bodies := by
  unfold forceStep
  split <;> exact ⟨rfl, rfl, rfl, rfl, rfl⟩

theorem forceStep_off {ρ α : Type} (dt : ℚ) (s : SolverState ρ α) (e k : Nat)
    (hk : k ≠ e) :
    (forceStep dt s e).nextVelocities k = s.nextVelocities k ∧
    (forceStep dt s e).forces k = s.forces k := by
  unfold forceStep
  split
  · exact ⟨updf_other _ _ _ _ hk, updf_other _ _ _ _ hk⟩
  · exact ⟨rfl, rfl⟩

theorem forceStep_at {ρ α : Type} (dt : ℚ) (s : SolverState ρ α) (e : Nat)
    {nv : Velocity α} {f : ForceAccumulator α} {m : Mass}
    (hnv : s.nextVelocities e = some nv) (hf : s.forces e = some f)
    (hm : s.masses e = some m) :
    (forceStep dt s e).nextVelocities e =
      some ⟨nv.linear + f.force * m.inverseMass * dt, nv.angular⟩ ∧
    (forceStep dt s e).forces e = some ⟨0, f.torque⟩ := by
  unfold forceStep
  rw [hnv, hf, hm]
  dsimp only
  exact ⟨updf_same _ _ _, updf_same _ _ _⟩

theorem integrateForces_untouched {ρ α : Type} (dt : ℚ) (el : List Nat)
    (s : SolverState ρ α) :
    (integrateForces dt el s).poses = s.poses ∧
    (integrateForces dt el s).nextPoses = s.nextPoses ∧
    (integrateForces dt el s).velocities = s.velocities ∧
    (integrateForces dt el s).masses = s.masses ∧
    (integrateForces dt el s).bodies = s.bodies := by
  induction el generalizing s with
  | nil => exact ⟨rfl, rfl, rfl, rfl, rfl⟩
  | cons a as ih =>
    obtain ⟨s1, s2, s3, s4, s5⟩ := forceStep_untouched dt s a
    obtain ⟨i1, i2, i3, i4, i5⟩ := ih (forceStep dt s a)
    exact ⟨i1.trans s1, i2.trans s2, i3.trans s3, i4.trans s4, i5.trans s5⟩

theorem integrateForces_off {ρ α : Type} (dt : ℚ) (el : List Nat)
    (s : SolverState ρ α) (k : Nat) (hk : k ∉ el) :
    (integrateForces dt el s).nextVelocities k = s.nextVelocities k ∧
    (integrateForces dt el s).forces k = s.forces k := by
  induction el generalizing s with
  | nil => exact ⟨rfl, rfl⟩
  | cons a as ih =>
    have hka : k ≠ a := fun h => hk (h ▸ List.mem_cons_self a as)
    have hkas : k ∉ as := fun h => hk (List.mem_cons_of_mem _ h)
    obtain ⟨s1, s2⟩ := forceStep_off dt s a k hka
    obtain ⟨i1, i2⟩ := ih (forceStep dt s a) hkas
    exact ⟨i1.trans s1, i2.trans s2⟩

theorem integrateForces_at {ρ α : Type} (dt : ℚ) (el : List Nat)
    (s : SolverState ρ α) (e : Nat) {nv : Velocity α} {f : ForceAccumulator α}
    {m : Mass} (he : e ∈ el) (hnd : el.Nodup)
    (hnv : s.nextVelocities e = some nv) (hf : s.forces e = some f)
    (hm : s.masses e = some m) :
    (integrateForces dt el s).nextVelocities e =
      some ⟨nv.linear + f.force * m.inverseMass * dt, nv.angular⟩ ∧
    (integrateForces dt el s).forces e = some ⟨0, f.torque⟩ := by
  induction el generalizing s with
  | nil => cases he
  | cons a as ih =>
    obtain ⟨hna, hnd'⟩ := List.nodup_cons.mp hnd
    rcases List.mem_cons.mp he with rfl | he'
    · obtain ⟨w1, w2⟩ := forceStep_at dt s e hnv hf hm
      obtain ⟨o1, o2⟩ := integrateForces_off dt as (forceStep dt s e) e hna
      exact ⟨o1.trans w1, o2.trans w2⟩
    · have hea : e ≠ a := fun h => hna (h ▸ he')
      obtain ⟨f1, f2⟩ := forceStep_off dt s a e hea
      have hm' : (forceStep dt s a).masses e = some m := by
        rw [(forceStep_untouched dt s a).2.2.2.1]
        exact hm
      exact ih (forceStep dt s a) he' hnd' (f1.trans hnv) (f2.trans hf) hm'

/-! ## Loop lemmas: next-frame positions -/

theorem posStep_untouched {ρ α : Type} (dt : ℚ) (s : SolverState ρ α) (e : Nat) :
    (posStep dt s e).poses = s.poses ∧
    (posStep dt s e).nextVelocities = s.nextVelocities ∧
    (posStep dt s e).velocities = s.velocities ∧
    (posStep dt s e).masses = s.masses ∧
    (posStep dt s e).bodies = s.bodies ∧
    (posStep dt s e).forces = s.forces := by
  unfold posStep
  split <;> exact ⟨rfl, rfl, rfl, rfl, rfl, rfl⟩

theorem posStep_off {ρ α : Type} (dt : ℚ) (s : SolverState ρ α) (e k : Nat)
    (hk : k ≠ e) : (posStep dt s e).nextPoses k = s.nextPoses k := by
  unfold posStep
  split
  · exact updf_other _ _ _ _ hk
  · rfl

theorem posStep_at {ρ α : Type} (dt : ℚ) (s : SolverState ρ α) (e : Nat)
    {nv : Velocity α} {p np0 : BodyPose ρ} (hnv : s.nextVelocities e = some nv)
    (hp : s.poses e = some p) (hnp : s.nextPoses e = some np0) :
    (posStep dt s e).nextPoses e =
      some ⟨p.position + nv.linear * dt, p.rotation⟩ := by
  unfold posStep
  rw [hnv, hp, hnp]
  dsimp only
  exact updf_same _ _ _

theorem integratePositions_untouched {ρ α : Type} (dt : ℚ) (el : List Nat)
    (s : SolverState ρ α) :
    (integratePositions dt el s).poses = s.poses ∧
    (integratePositions dt el s).nextVelocities = s.nextVelocities ∧
    (integratePositions dt el s).velocities = s.velocities ∧
    (integratePositions dt el s).masses = s.masses ∧
    (integratePositions dt el s).bodies = s.bodies ∧
    (integratePositions dt el s).forces = s.forces := by
  induction el generalizing s with
  | nil => exact ⟨rfl, rfl, rfl, rfl, rfl, rfl⟩
  | cons a as ih =>
    obtain ⟨s1, s2, s3, s4, s5, s6⟩ := posStep_untouched dt s a
    obtain ⟨i1, i2, i3, i4, i5, i6⟩ := ih (posStep dt s a)
    exact ⟨i1.trans s1, i2.trans s2, i3.trans s3, i4.trans s4, i5.trans s5,
      i6.trans s6⟩

theorem integratePositions_off {ρ α : Type} (dt : ℚ) (el : List Nat)
    (s : SolverState ρ α) (k : Nat) (hk : k ∉ el) :
    (integratePositions dt el s).nextPoses k = s.nextPoses k := by
  induction el generalizing s with
  | nil => rfl
  | cons a as ih =>
    have hka : k ≠ a := fun h => hk (h ▸ List.mem_cons_self a as)
    have hkas : k ∉ as := fun h => hk (List.mem_cons_of_mem _ h)
    exact (ih (posStep dt s a) hkas).trans (posStep_off dt s a k hka)

theorem integratePositions_at {ρ α : Type} (dt : ℚ) (el : List Nat)
    (s : SolverState ρ α) (e : Nat) {nv : Velocity α} {p np0 : BodyPose ρ}
    (he : e ∈ el) (hnd : el.Nodup) (hnv : s.nextVelocities e = some nv)
    (hp : s.poses e = some p) (hnp : s.nextPoses e = some np0) :
    (integratePositions dt el s).nextPoses e =
      some ⟨p.position + nv.linear * dt, p.rotation⟩ := by
  induction el generalizing s with
  | nil => cases he
  | cons a as ih =>
    obtain ⟨hna, hnd'⟩ := List.nodup_cons.mp hnd
    rcases List.mem_cons.mp he with rfl | he'
    · exact (integratePositions_off dt as (posStep dt s e) e hna).trans
        (posStep_at dt s e hnv hp hnp)
    · have hea : e ≠ a := fun h => hna (h ▸ he')
      have hnv' : (posStep dt s a).nextVelocities e = some nv := by
        rw [(posStep_untouched dt s a).2.1]; exact hnv
      have hp' : (posStep dt s a).poses e = some p := by
        rw [(posStep_untouched dt s a).1]; exact hp
      exact ih (posStep dt s a) he' hnd'
        hnv' hp' ((posStep_off dt s a e hea).trans hnp)

/-! ## Loop lemmas: frame promotion -/

theorem promotePoseStep_untouched {ρ α : Type} (s : SolverState ρ α) (e : Nat) :
    (promotePoseStep s e).nextPoses = s.nextPoses ∧
    (promotePoseStep s e).nextVelocities = s.nextVelocities ∧
    (promotePoseStep s e).velocities = s.velocities ∧
    (promotePoseStep s e).masses = s.masses ∧
    (promotePoseStep s e).bodies = s.bodies ∧
    (promotePoseStep s e).forces = s.forces := by
  unfold promotePoseStep
  split <;> exact ⟨rfl, rfl, rfl, rfl, rfl, rfl⟩

theorem promotePoseStep_off {ρ α : Type} (s : SolverState ρ α) (e k : Nat)
    (hk : k ≠ e) : (promotePoseStep s e).poses k = s.poses k := by
  unfold promotePoseStep
  split
  · exact updf_other _ _ _ _ hk
  · rfl

theorem promotePoseStep_at {ρ α : Type} (s : SolverState ρ α) (e : Nat)
    {np p : BodyPose ρ} (hnp : s.nextPoses e = some np)
    (hp : s.poses e = some p) : (promotePoseStep s e).poses e = some np := by
  unfold promotePoseStep
  rw [hnp, hp]
  dsimp only
  exact updf_same _ _ _

theorem promotePoseStep_skip {ρ α : Type} (s : SolverState ρ α) (e k : Nat)
    (h : s.nextPoses k = none ∨ s.poses k = none) :
    (promotePoseStep s e).poses k = s.poses k := by
  by_cases hk : k = e
  · subst hk
    unfold promotePoseStep
    rcases h with h | h
    · rw [h]
    · cases hnp : s.nextPoses k with
      | none => rfl
      | some np =>
        rw [h]
        dsimp only
        exact h
  · exact promotePoseStep_off s e k hk

theorem promotePoses_untouched {ρ α : Type} (el : List Nat)
    (s : SolverState ρ α) :
    (promotePoses el s).nextPoses = s.nextPoses ∧
    (promotePoses el s).nextVelocities = s.nextVelocities ∧
    (promotePoses el s).velocities = s.velocities ∧
    (promotePoses el s).masses = s.masses ∧
    (promotePoses el s).bodies = s.bodies ∧
    (promotePoses el s).forces = s.forces := by
  induction el generalizing s with
  | nil => exact ⟨rfl, rfl, rfl, rfl, rfl, rfl⟩
  | cons a as ih =>
    obtain ⟨s1, s2, s3, s4, s5, s6⟩ := promotePoseStep_untouched s a
    obtain ⟨i1, i2, i3, i4, i5, i6⟩ := ih (promotePoseStep s a)
    exact ⟨i1.trans s1, i2.trans s2, i3.trans s3, i4.trans s4, i5.trans s5,
      i6.trans s6⟩

theorem promotePoses_off {ρ α : Type} (el : List Nat) (s : SolverState ρ α)
    (k : Nat) (hk : k ∉ el) : (promotePoses el s).poses k = s.poses k := by
  induction el generalizing s with
  | nil => rfl
  | cons a as ih =>
    have hka : k ≠ a := fun h => hk (h ▸ List.mem_cons_self a as)
    have hkas : k ∉ as := fun h => hk (List.mem_cons_of_mem _ h)
    exact (ih (promotePoseStep s a) hkas).trans (promotePoseStep_off s a k hka)

theorem promotePoses_at {ρ α : Type} (el : List Nat) (s : SolverState ρ α)
    (e : Nat) {np p : BodyPose ρ} (he : e ∈ el) (hnd : el.Nodup)
    (hnp : s.nextPoses e = some np) (hp : s.poses e = some p) :
    (promotePoses el s).poses e = some np := by
  induction el generalizing s with
  | nil => cases he
  | cons a as ih =>
    obtain ⟨hna, hnd'⟩ := List.nodup_cons.mp hnd
    rcases List.mem_cons.mp he with rfl | he'
    · exact (promotePoses_off as (promotePoseStep s e) e hna).trans
        (promotePoseStep_at s e hnp hp)
    · have hea : e ≠ a := fun h => hna (h ▸ he')
      have hnp' : (promotePoseStep s a).nextPoses e = some np := by
        rw [(promotePoseStep_untouched s a).1]; exact hnp
      exact ih (promotePoseStep s a) he' hnd' hnp'
        ((promotePoseStep_off s a e hea).trans hp)

theorem promotePoses_skip {ρ α : Type} (el : List Nat) (s : SolverState ρ α)
    (k : Nat) (h : s.nextPoses k = none ∨ s.poses k = none) :
    (promotePoses el s).poses k = s.poses k := by
  induction el generalizing s with
  | nil => rfl
  | cons a as ih =>
    have h' : (promotePoseStep s a).nextPoses k = none ∨
        (promotePoseStep s a).poses k = none := by
      rcases h with h | h
      · exact Or.inl (((promotePoseStep_untouched s a).1 ▸ h))
      · exact Or.inr ((promotePoseStep_skip s a k (Or.inr h)).trans h)
    exact (ih (promotePoseStep s a) h').trans (promotePoseStep_skip s a k h)

theorem promoteVelStep_untouched {ρ α : Type} (s : SolverState ρ α) (e : Nat) :
    (promoteVelStep s e).nextPoses = s.nextPoses ∧
    (promoteVelStep s e).nextVelocities = s.nextVelocities ∧
    (promoteVelStep s e).poses = s.poses ∧
    (promoteVelStep s e).masses = s.masses ∧
    (promoteVelStep s e).bodies = s.bodies ∧
    (promoteVelStep s e).forces = s.forces := by
  unfold promoteVelStep
  split <;> exact ⟨rfl, rfl, rfl, rfl, rfl, rfl⟩

theorem promoteVelStep_off {ρ α : Type} (s : SolverState ρ α) (e k : Nat)
    (hk : k ≠ e) : (promoteVelStep s e).velocities k = s.velocities k := by
  unfold promoteVelStep
  split
  · exact updf_other _ _ _ _ hk
  · rfl

theorem promoteVelStep_at {ρ α : Type} (s : SolverState ρ α) (e : Nat)
    {nv v : Velocity α} (hnv : s.nextVelocities e = some nv)
    (hv : s.velocities e = some v) :
    (promoteVelStep s e).velocities e = some nv := by
  unfold promoteVelStep
  rw [hnv, hv]
  dsimp only
  exact updf_same _ _ _

theorem promoteVelStep_skip {ρ α : Type} (s : SolverState ρ α) (e k : Nat)
    (h : s.nextVelocities k = none ∨ s.velocities k = none) :
    (promoteVelStep s e).velocities k = s.velocities k := by
  by_cases hk : k = e
  · subst hk
    unfold promoteVelStep
    rcases h with h | h
    · rw [h]
    · cases hnv : s.nextVelocities k with
      | none => rfl
      | some nv =>
        rw [h]
        dsimp only
        exact h
  · exact promoteVelStep_off s e k hk

theorem promoteVelocities_untouched {ρ α : Type} (el : List Nat)
    (s : SolverState ρ α) :
    (promoteVelocities el s).nextPoses = s.nextPoses ∧
    (promoteVelocities el s).nextVelocities = s.nextVelocities ∧
    (promoteVelocities el s).poses = s.poses ∧
    (promoteVelocities el s).masses = s.masses ∧
    (promoteVelocities el s).bodies = s.bodies ∧
    (promoteVelocities el s).forces = s.forces := by
  induction el generalizing s with
  | nil => exact ⟨rfl, rfl, rfl, rfl, rfl, rfl⟩
  | cons a as ih =>
    obtain ⟨s1, s2, s3, s4, s5, s6⟩ := promoteVelStep_untouched s a
    obtain ⟨i1, i2, i3, i4, i5, i6⟩ := ih (promoteVelStep s a)
    exact ⟨i1.trans s1, i2.trans s2, i3.trans s3, i4.trans s4, i5.trans s5,
      i6.trans s6⟩

theorem promoteVelocities_off {ρ α : Type} (el : List Nat)
    (s : SolverState ρ α) (k : Nat) (hk : k ∉ el) :
    (promoteVelocities el s).velocities k = s.velocities k := by
  induction el generalizing s with
  | nil => rfl
  | cons a as ih =>
    have hka : k ≠ a := fun h => hk (h ▸ List.mem_cons_self a as)
    have hkas : k ∉ as := fun h => hk (List.mem_cons_of_mem _ h)
    exact (ih (promoteVelStep s a) hkas).trans (promoteVelStep_off s a k hka)

theorem promoteVelocities_at {ρ α : Type} (el : List Nat) (s : SolverState ρ α)
    (e : Nat) {nv v : Velocity α} (he : e ∈ el) (hnd : el.Nodup)
    (hnv : s.nextVelocities e = some nv) (hv : s.velocities e = some v) :
    (promoteVelocities el s).velocities e = some nv := by
  induction el generalizing s with
  | nil => cases he
  | cons a as ih =>
    obtain ⟨hna, hnd'⟩ := List.nodup_cons.mp hnd
    rcases List.mem_cons.mp he with rfl | he'
    · exact (promoteVelocities_off as (promoteVelStep s e) e hna).trans
        (promoteVelStep_at s e hnv hv)
    · have hea : e ≠ a := fun h => hna (h ▸ he')
      have hnv' : (promoteVelStep s a).nextVelocities e = some nv := by
        rw [(promoteVelStep_untouched s a).2.1]; exact hnv
      exact ih (promoteVelStep s a) he' hnd' hnv'
        ((promoteVelStep_off s a e hea).trans hv)

theorem promoteVelocities_skip {ρ α : Type} (el : List Nat)
    (s : SolverState ρ α) (k : Nat)
    (h : s.nextVelocities k = none ∨ s.velocities k = none) :
    (promoteVelocities el s).velocities k = s.velocities k := by
  induction el generalizing s with
  | nil => rfl
  | cons a as ih =>
    have h' : (promoteVelStep s a).nextVelocities k = none ∨
        (promoteVelStep s a).velocities k = none := by
      rcases h with h | h
      · exact Or.inl (((promoteVelStep_untouched s a).2.1 ▸ h))
      · exact Or.inr ((promoteVelStep_skip s a k (Or.inr h)).trans h)
    exact (ih (promoteVelStep s a) h').trans (promoteVelStep_skip s a k h)

/-! ## Claim C10 -/

/-- C10: frame promotion never creates a current-frame component: an entity
without a current pose (resp. velocity) still has none afterwards, and an
entity without the corresponding next-frame slot keeps its current value
unchanged. -/
theorem C10_promotion_never_creates {ρ α : Type} (el : List Nat)
    (s : SolverState ρ α) (k : Nat) :
    (s.poses k = none → (update_current_frame el s).poses k = none) ∧
    (s.velocities k = none → (update_current_frame el s).velocities k = none) ∧
    (s.nextPoses k = none → (update_current_frame el s).poses k = s.poses k) ∧
    (s.nextVelocities k = none →
      (update_current_frame el s).velocities k = s.velocities k) := by
  unfold update_current_frame
  refine ⟨?_, ?_, ?_, ?_⟩
  · intro h
    rw [congrFun (promoteVelocities_untouched el (promotePoses el s)).2.2.1 k]
    exact (promotePoses_skip el s k (Or.inr h)).trans h
  · intro h
    have h1 : (promotePoses el s).velocities k = none :=
      (congrFun (promotePoses_untouched el s).2.2.1 k).trans h
    exact (promoteVelocities_skip el _ k (Or.inr h1)).trans h1
  · intro h
    rw [congrFun (promoteVelocities_untouched el (promotePoses el s)).2.2.1 k]
    exact promotePoses_skip el s k (Or.inl h)
  · intro h
    have hnv : (promotePoses el s).nextVelocities k = none :=
      (congrFun (promotePoses_untouched el s).2.1 k).trans h
    exact (promoteVelocities_skip el _ k (Or.inl hnv)).trans
      (congrFun (promotePoses_untouched el s).2.2.1 k)

/-- C10 witness: an entity with a next-frame pose but no current pose is
skipped by promotion. -/
theorem C10_promotion_never_creates_witness :
    (update_current_frame (ρ := Unit) (α := Unit) [1]
        ⟨fun _ => none, fun _ => none, fun _ => none, fun _ => none,
         fun _ => none, fun k => if k = 1 then some ⟨5, ()⟩ else none,
         fun _ => none⟩).poses 1 = none :=
  (C10_promotion_never_creates [1]
      ⟨fun _ => none, fun _ => none, fun _ => none, fun _ => none,
       fun _ => none, fun k => if k = 1 then some ⟨5, ()⟩ else none,
       fun _ => none⟩ 1).1 rfl

/-! ## Claim C6 -/

/-- C6: for every joined entity carrying both a next-frame and a current pose
(resp. velocity), frame promotion overwrites the current value with an exact
copy of the next-frame value; and in a solver run the promotion is applied to
the contact-resolution output before force integration runs. -/
theorem C6_frame_promotion {ρ α : Type} (el : List Nat) (s : SolverState ρ α)
    (e : Nat) (he : e ∈ el) (hnd : el.Nodup) :
    (∀ np p, s.nextPoses e = some np → s.poses e = some p →
      (update_current_frame el s).poses e = some np) ∧
    (∀ nv v, s.nextVelocities e = some nv → s.velocities e = some v →
      (update_current_frame el s).velocities e = some nv) ∧
    (∀ (rf : ResolveFn ρ α) (dt : ℚ) (ch : EventChannel ContactEvent)
        (cursor : Nat) (s0 s1 : SolverState ρ α),
      contact_resolution rf (lossy_read ch cursor).1 s0 = Except.ok s1 →
      solverRun rf dt el ch cursor s0 =
        Except.ok (compute_next_frame dt el (update_current_frame el s1),
          (lossy_read ch cursor).2.1, (lossy_read ch cursor).2.2)) := by
  refine ⟨?_, ?_, ?_⟩
  · intro np p hnp hp
    unfold update_current_frame
    rw [congrFun (promoteVelocities_untouched el (promotePoses el s)).2.2.1 e]
    exact promotePoses_at el s e he hnd hnp hp
  · intro nv v hnv hv
    unfold update_current_frame
    have hnv' : (promotePoses el s).nextVelocities e = some nv :=
      (congrFun (promotePoses_untouched el s).2.1 e).trans hnv
    have hv' : (promotePoses el s).velocities e = some v :=
      (congrFun (promotePoses_untouched el s).2.2.1 e).trans hv
    exact promoteVelocities_at el (promotePoses el s) e he hnd hnv' hv'
  · intro rf dt ch cursor s0 s1 hres
    simp only [solverRun]
    rw [hres]

/-- C6 witness: a concrete entity with both slots present gets the exact copy. -/
theorem C6_frame_promotion_witness :
    (update_current_frame (ρ := Unit) (α := Unit) [1]
        ⟨fun _ => none, fun _ => none, fun _ => none, fun _ => none,
         fun k => if k = 1 then some ⟨2, ()⟩ else none,
         fun k => if k = 1 then some ⟨5, ()⟩ else none,
         fun _ => none⟩).poses 1 = some ⟨5, ()⟩ :=
  (C6_frame_promotion [1]
      ⟨fun _ => none, fun _ => none, fun _ => none, fun _ => none,
       fun k => if k = 1 then some ⟨2, ()⟩ else none,
       fun k => if k = 1 then some ⟨5, ()⟩ else none,
       fun _ => none⟩ 1 (by decide) (by decide)).1 ⟨5, ()⟩ ⟨2, ()⟩ rfl rfl

/-! ## Claim C7 -/

/-- C7: force integration is semi-implicit Euler: for a joined entity the new
next-frame linear velocity is `v + (force * inverse_mass) * dt` (and is
unchanged when the accumulated force is zero); then the next-frame position is
`current_position + new_velocity * dt` with the current rotation carried
through unchanged; `compute_next_frame` is exactly the position pass after the
force pass. -/
theorem C7_semi_implicit_euler {ρ α : Type} (dt : ℚ) (el : List Nat)
    (s : SolverState ρ α) (e : Nat) (he : e ∈ el) (hnd : el.Nodup) :
    (∀ (nv : Velocity α) (f : ForceAccumulator α) (m : Mass),
      s.nextVelocities e = some nv → s.forces e = some f → s.masses e = some m →
      (integrateForces dt el s).nextVelocities e =
        some ⟨nv.linear + f.force * m.inverseMass * dt, nv.angular⟩ ∧
      (f.force = 0 → (integrateForces dt el s).nextVelocities e = some nv)) ∧
    (∀ (nv : Velocity α) (p np0 : BodyPose ρ),
      s.nextVelocities e = some nv → s.poses e = some p →
      s.nextPoses e = some np0 →
      (integratePositions dt el s).nextPoses e =
        some ⟨p.position + nv.linear * dt, p.rotation⟩) ∧
    compute_next_frame dt el s = integratePositions dt el (integrateForces dt el s) ∧
    (∀ (nv : Velocity α) (f : ForceAccumulator α) (m : Mass) (p np0 : BodyPose ρ),
      s.nextVelocities e = some nv → s.forces e = some f → s.masses e = some m →
      s.poses e = some p → s.nextPoses e = some np0 →
      (compute_next_frame dt el s).nextVelocities e =
        some ⟨nv.linear + f.force * m.inverseMass * dt, nv.angular⟩ ∧
      (compute_next_frame dt el s).nextPoses e =
        some ⟨p.position + (nv.linear + f.force * m.inverseMass * dt) * dt,
          p.rotation⟩) := by
  refine ⟨?_, ?_, rfl, ?_⟩
  · intro nv f m hnv hf hm
    have h1 := (integrateForces_at dt el s e he hnd hnv hf hm).1
    refine ⟨h1, ?_⟩
    intro hf0
    have harith : nv.linear + f.force * m.inverseMass * dt = nv.linear := by
      rw [hf0]; ring
    rw [h1, harith]
  · intro nv p np0 hnv hp hnp
    exact integratePositions_at dt el s e he hnd hnv hp hnp
  · intro nv f m p np0 hnv hf hm hp hnp
    have h1 := (integrateForces_at dt el s e he hnd hnv hf hm).1
    have hp' : (integrateForces dt el s).poses e = some p :=
      (congrFun (integrateForces_untouched dt el s).1 e).trans hp
    have hnp' : (integrateForces dt el s).nextPoses e = some np0 :=
      (congrFun (integrateForces_untouched dt el s).2.1 e).trans hnp
    constructor
    · exact (congrFun (integratePositions_untouched dt el
        (integrateForces dt el s)).2.1 e).trans h1
    · exact integratePositions_at dt el (integrateForces dt el s) e he hnd
        h1 hp' hnp'

/-- C7 witness: a concrete entity with velocity 1, force 6, inverse mass 1/2,
dt 1 gets next velocity 4 and next position `10 + 4`. -/
theorem C7_semi_implicit_euler_witness :
    (compute_next_frame (ρ := Unit) (α := Unit) 1 [3]
        ⟨fun k => if k = 3 then some ⟨1/2⟩ else none, fun _ => none,
         fun _ => none, fun k => if k = 3 then some ⟨1, ()⟩ else none,
         fun k => if k = 3 then some ⟨10, ()⟩ else none,
         fun k => if k = 3 then some ⟨0, ()⟩ else none,
         fun k => if k = 3 then some ⟨6, ()⟩ else none⟩).nextPoses 3 =
      some ⟨10 + (1 + 6 * (1/2) * 1) * 1, ()⟩ :=
  ((C7_semi_implicit_euler 1 [3]
      ⟨fun k => if k = 3 then some ⟨1/2⟩ else none, fun _ => none,
       fun _ => none, fun k => if k = 3 then some ⟨1, ()⟩ else none,
       fun k => if k = 3 then some ⟨10, ()⟩ else none,
       fun k => if k = 3 then some ⟨0, ()⟩ else none,
       fun k => if k = 3 then some ⟨6, ()⟩ else none⟩ 3 (by decide)
      (by decide)).2.2.2 ⟨1, ()⟩ ⟨6, ()⟩ ⟨1/2⟩ ⟨10, ()⟩ ⟨0, ()⟩
    rfl rfl rfl rfl rfl).2

/-! ## Claim C3 -/

/-- C3 counterexample: an entity carrying a nonzero force accumulator but no
mass (and no next-frame velocity) is skipped by the integration join, so one
solver tick leaves its accumulator undrained (still 3, not 0). -/
theorem C3_undrained_counterexample :
    (solverRun (ρ := Unit) (α := Unit)
          (fun _ _ _ => (⟨none, none⟩, ⟨none, none⟩)) 1 [5] ⟨[], 0⟩ 0
          ⟨fun _ => none, fun _ => none, fun _ => none, fun _ => none,
           fun _ => none, fun _ => none,
           fun k => if k = 5 then some ⟨3, ()⟩ else none⟩).map
        (fun out => out.1.forces 5) =
      Except.ok (some ⟨3, ()⟩) ∧ (3 : ℚ) ≠ 0 := by
  exact ⟨rfl, by norm_num⟩

/-- C3 amended: for every entity carrying a force accumulator together with a
next-frame velocity and a mass, one solver tick drains the accumulator's force
to zero (the torque slot untouched), exactly once, in the force-integration
stage, and only after the accumulated force has been read into the velocity
update (the new next-frame velocity uses the pre-drain force value). -/
theorem C3_force_drained_once {ρ α : Type} (rf : ResolveFn ρ α) (dt : ℚ)
    (el : List Nat) (ch : EventChannel ContactEvent) (cursor : Nat)
    (s s1 : SolverState ρ α)
    (hres : contact_resolution rf (lossy_read ch cursor).1 s = Except.ok s1)
    (e : Nat) (he : e ∈ el) (hnd : el.Nodup) {f : ForceAccumulator α} {m : Mass}
    (hf : s.forces e = some f) (hm : s.masses e = some m)
    (hnv : (s.nextVelocities e).isSome = true) :
    solverRun rf dt el ch cursor s =
      Except.ok (compute_next_frame dt el (update_current_frame el s1),
        (lossy_read ch cursor).2.1, (lossy_read ch cursor).2.2) ∧
    (compute_next_frame dt el (update_current_frame el s1)).forces e =
      some ⟨0, f.torque⟩ ∧
    (compute_next_frame dt el (update_current_frame el s1)).nextVelocities e =
      ((update_current_frame el s1).nextVelocities e).map
        (fun nv => ⟨nv.linear + f.force * m.inverseMass * dt, nv.angular⟩) := by
  obtain ⟨pm, _, _, _, pf, _, pnv⟩ := contact_resolution_preserves hres
  have hf1 : s1.forces e = some f := (congrFun pf e).trans hf
  have hm1 : s1.masses e = some m := (congrFun pm e).trans hm
  have hnv1 : (s1.nextVelocities e).isSome = true := (pnv e).trans hnv
  have hf2 : (update_current_frame el s1).forces e = some f := by
    unfold update_current_frame
    rw [congrFun (promoteVelocities_untouched el (promotePoses el s1)).2.2.2.2.2 e,
      congrFun (promotePoses_untouched el s1).2.2.2.2.2 e]
    exact hf1
  have hm2 : (update_current_frame el s1).masses e = some m := by
    unfold update_current_frame
    rw [congrFun (promoteVelocities_untouched el (promotePoses el s1)).2.2.2.1 e,
      congrFun (promotePoses_untouched el s1).2.2.2.1 e]
    exact hm1
  have hnveq : (update_current_frame el s1).nextVelocities e =
      s1.nextVelocities e := by
    unfold update_current_frame
    rw [congrFun (promoteVelocities_untouched el (promotePoses el s1)).2.1 e,
      congrFun (promotePoses_untouched el s1).2.1 e]
  obtain ⟨nv, hnv2⟩ := Option.isSome_iff_exists.mp (hnveq ▸ hnv1)
  obtain ⟨w1, w2⟩ :=
    integrateForces_at dt el (update_current_frame el s1) e he hnd hnv2 hf2 hm2
  refine ⟨?_, ?_, ?_⟩
  · simp only [solverRun]
    rw [hres]
  · unfold compute_next_frame
    rw [congrFun (integratePositions_untouched dt el
      (integrateForces dt el (update_current_frame el s1))).2.2.2.2.2 e]
    exact w2
  · unfold compute_next_frame
    rw [congrFun (integratePositions_untouched dt el
      (integrateForces dt el (update_current_frame el s1))).2.1 e, w1, hnv2]
    rfl

/-- C3 amended witness: concrete entity 2 with force 4, inverse mass 2,
velocity 1, dt 1: after the tick the accumulator is 0 and the velocity is 9. -/
theorem C3_force_drained_once_witness :
    (compute_next_frame (ρ := Unit) (α := Unit) 1 [2]
        (update_current_frame [2]
          ⟨fun k => if k = 2 then some ⟨2⟩ else none, fun _ => none,
           fun _ => none, fun k => if k = 2 then some ⟨1, ()⟩ else none,
           fun _ => none, fun _ => none,
           fun k => if k = 2 then some ⟨4, ()⟩ else none⟩)).forces 2 =
      some ⟨0, ()⟩ :=
  (C3_force_drained_once (ρ := Unit) (α := Unit)
      (fun _ _ _ => (⟨none, none⟩, ⟨none, none⟩)) 1 [2] ⟨[], 0⟩ 0
      ⟨fun k => if k = 2 then some ⟨2⟩ else none, fun _ => none,
       fun _ => none, fun k => if k = 2 then some ⟨1, ()⟩ else none,
       fun _ => none, fun _ => none,
       fun k => if k = 2 then some ⟨4, ()⟩ else none⟩
      ⟨fun k => if k = 2 then some ⟨2⟩ else none, fun _ => none,
       fun _ => none, fun k => if k = 2 then some ⟨1, ()⟩ else none,
       fun _ => none, fun _ => none,
       fun k => if k = 2 then some ⟨4, ()⟩ else none⟩
      rfl 2 (by decide) (by decide) rfl rfl rfl).2.1

/-! ## Claim C4 -/

theorem applyTo_nextPoses_at {ρ α : Type} (s : SolverState ρ α) (b : Nat)
    (cs : ChangeSet) :
    (applyTo s b cs).nextPoses b =
      (cs.apply (s.nextPoses b) (s.nextVelocities b)).1 := by
  simp [applyTo, updf]

theorem applyTo_nextVelocities_at {ρ α : Type} (s : SolverState ρ α) (b : Nat)
    (cs : ChangeSet) :
    (applyTo s b cs).nextVelocities b =
      (cs.apply (s.nextPoses b) (s.nextVelocities b)).2 := by
  simp [applyTo, updf]

theorem applyTo_nextPoses_off {ρ α : Type} (s : SolverState ρ α) (b : Nat)
    (cs : ChangeSet) (k : Nat) (hk : k ≠ b) :
    (applyTo s b cs).nextPoses k = s.nextPoses k := by
  simp [applyTo, updf, hk]

theorem applyTo_nextVelocities_off {ρ α : Type} (s : SolverState ρ α) (b : Nat)
    (cs : ChangeSet) (k : Nat) (hk : k ≠ b) :
    (applyTo s b cs).nextVelocities k = s.nextVelocities k := by
  simp [applyTo, updf, hk]

/-- C4 amended: for a drained contact event whose bodies both resolve, the
computed change set is applied to each body's existing next-frame pose and
velocity slots through `get_mut`; a slot that is absent for a body is left
absent (never created), so that component of the change is dropped. -/
theorem C4_change_set_applied {ρ α : Type} (rf : ResolveFn ρ α)
    (c : ContactEvent) (s : SolverState ρ α) {rd0 rd1 : ResolveData ρ α}
    (h0 : resolveData s c.bodies.1 = Except.ok rd0)
    (h1 : resolveData s c.bodies.2 = Except.ok rd1)
    (hne : c.bodies.1 ≠ c.bodies.2) :
    contact_resolution rf [c] s =
      Except.ok (applyTo (applyTo s c.bodies.1 (rf c rd0 rd1).1) c.bodies.2
        (rf c rd0 rd1).2) ∧
    (applyTo (applyTo s c.bodies.1 (rf c rd0 rd1).1) c.bodies.2
        (rf c rd0 rd1).2).nextPoses c.bodies.1 =
      ((rf c rd0 rd1).1.apply (s.nextPoses c.bodies.1)
        (s.nextVelocities c.bodies.1)).1 ∧
    (applyTo (applyTo s c.bodies.1 (rf c rd0 rd1).1) c.bodies.2
        (rf c rd0 rd1).2).nextVelocities c.bodies.1 =
      ((rf c rd0 rd1).1.apply (s.nextPoses c.bodies.1)
        (s.nextVelocities c.bodies.1)).2 ∧
    (applyTo (applyTo s c.bodies.1 (rf c rd0 rd1).1) c.bodies.2
        (rf c rd0 rd1).2).nextPoses c.bodies.2 =
      ((rf c rd0 rd1).2.apply (s.nextPoses c.bodies.2)
        (s.nextVelocities c.bodies.2)).1 ∧
    (applyTo (applyTo s c.bodies.1 (rf c rd0 rd1).1) c.bodies.2
        (rf c rd0 rd1).2).nextVelocities c.bodies.2 =
      ((rf c rd0 rd1).2.apply (s.nextPoses c.bodies.2)
        (s.nextVelocities c.bodies.2)).2 ∧
    (∀ (csx : ChangeSet) (vel : Option (Velocity α)),
      (ChangeSet.apply (ρ := ρ) csx none vel).1 = none) ∧
    (∀ (csx : ChangeSet) (pose : Option (BodyPose ρ)),
      (ChangeSet.apply (α := α) csx pose none).2 = none) := by
  have hro : resolveOne rf c s =
      Except.ok (applyTo (applyTo s c.bodies.1 (rf c rd0 rd1).1) c.bodies.2
        (rf c rd0 rd1).2) := by
    unfold resolveOne
    rw [h0]
    dsimp only
    rw [h1]
  have hne' : c.bodies.2 ≠ c.bodies.1 := fun h => hne h.symm
  refine ⟨?_, ?_, ?_, ?_, ?_, ?_, ?_⟩
  · simp only [contact_resolution]
    rw [hro]
  · rw [applyTo_nextPoses_off _ _ _ _ hne]
    exact applyTo_nextPoses_at s c.bodies.1 (rf c rd0 rd1).1
  · rw [applyTo_nextVelocities_off _ _ _ _ hne]
    exact applyTo_nextVelocities_at s c.bodies.1 (rf c rd0 rd1).1
  · rw [applyTo_nextPoses_at]
    rw [applyTo_nextPoses_off _ _ _ _ hne', applyTo_nextVelocities_off _ _ _ _ hne']
  · rw [applyTo_nextVelocities_at]
    rw [applyTo_nextPoses_off _ _ _ _ hne', applyTo_nextVelocities_off _ _ _ _ hne']
  · intro csx vel
    rcases csx with ⟨cv, cp⟩
    cases cp <;> rfl
  · intro csx pose
    rcases csx with ⟨cv, cp⟩
    cases cv <;> rfl

/-- C4 counterexample: body 1 of a drained contact event has no next-frame
velocity slot; the resolve function produces a nonzero velocity change for it,
yet after resolution the slot is still absent (not created: the change was
dropped), while body 2, whose slot exists, received the change. -/
theorem C4_no_slot_creation_counterexample :
    (contact_resolution (ρ := Unit) (α := Unit)
          (fun _ _ _ => (⟨some 1, none⟩, ⟨some 1, none⟩)) [⟨(1, 2), 1, 0⟩]
          ⟨fun k => if k = 1 ∨ k = 2 then some ⟨1⟩ else none,
           fun k => if k = 1 ∨ k = 2 then some ⟨⟨0, 0⟩⟩ else none,
           fun _ => none, fun k => if k = 2 then some ⟨0, ()⟩ else none,
           fun k => if k = 1 ∨ k = 2 then some ⟨0, ()⟩ else none,
           fun _ => none, fun _ => none⟩).map
        (fun s' => (s'.nextVelocities 1, s'.nextVelocities 2)) =
      Except.ok (none, some ⟨0 + 1, ()⟩) := by
  rfl

/-- C4 amended witness: the single-event resolution at a concrete state equals
the two slot write-backs. -/
theorem C4_change_set_applied_witness :
    contact_resolution (ρ := Unit) (α := Unit)
        (fun _ _ _ => (⟨some 1, none⟩, ⟨some 1, none⟩)) [⟨(1, 2), 1, 0⟩]
        ⟨fun k => if k = 1 ∨ k = 2 then some ⟨1⟩ else none,
         fun k => if k = 1 ∨ k = 2 then some ⟨⟨0, 0⟩⟩ else none,
         fun _ => none, fun k => if k = 2 then some ⟨0, ()⟩ else none,
         fun k => if k = 1 ∨ k = 2 then some ⟨0, ()⟩ else none,
         fun _ => none, fun _ => none⟩ =
      Except.ok (applyTo (applyTo
        ⟨fun k => if k = 1 ∨ k = 2 then some ⟨1⟩ else none,
         fun k => if k = 1 ∨ k = 2 then some ⟨⟨0, 0⟩⟩ else none,
         fun _ => none, fun k => if k = 2 then some ⟨0, ()⟩ else none,
         fun k => if k = 1 ∨ k = 2 then some ⟨0, ()⟩ else none,
         fun _ => none, fun _ => none⟩ 1 ⟨some 1, none⟩) 2 ⟨some 1, none⟩) :=
  (@C4_change_set_applied Unit Unit
      (fun _ _ _ => (⟨some 1, none⟩, ⟨some 1, none⟩)) ⟨(1, 2), 1, 0⟩
      ⟨fun k => if k = 1 ∨ k = 2 then some ⟨1⟩ else none,
       fun k => if k = 1 ∨ k = 2 then some ⟨⟨0, 0⟩⟩ else none,
       fun _ => none, fun k => if k = 2 then some ⟨0, ()⟩ else none,
       fun k => if k = 1 ∨ k = 2 then some ⟨0, ()⟩ else none,
       fun _ => none, fun _ => none⟩
      ⟨none, ⟨0, ()⟩, ⟨1⟩, ⟨0, 0⟩⟩
      ⟨some ⟨0, ()⟩, ⟨0, ()⟩, ⟨1⟩, ⟨0, 0⟩⟩ rfl rfl (by decide)).1

/-! ## Claim C8 -/

/-- C8 counterexample: with no narrow phase configured, a candidate pair whose
entities carry neither a pose nor a shape does not abort the run: the run
completes and still emits a contact set for the pair. -/
theorem C8_no_abort_counterexample :
    runSpatial (β := Nat) none (some fun _ => [(1, 2)]) (fun t => t)
        (fun _ _ => true) ⟨[], fun _ => none, fun _ => none⟩ [] [] =
      Except.ok
        ([ContactSet.new_single CollisionStrategy.CollisionOnly (1, 2)], []) ∧
    (⟨[], fun _ => none, fun _ => none⟩ : CollideWorld Nat).poses 1 = none ∧
    (⟨[], fun _ => none, fun _ => none⟩ : CollideWorld Nat).shapes 1 = none :=
  ⟨rfl, rfl, rfl⟩

/-- C8 amended: when a narrow phase is configured, a candidate entity lacking a
pose or a collision shape aborts the orchestrator run, and when every candidate
entity has both, the run completes; in contact resolution, a drained event with
a body lacking a mass, a rigid body, or any resolvable pose aborts the tick,
and when every event's bodies carry them, resolution completes; with no narrow
phase the candidate components are never accessed and the run always completes. -/
theorem C8_fatal_aborts {β ρ α : Type} (nf : NarrowFn β)
    (broad : Option (List (TreeValue β) → List (Nat × Nat)))
    (reindexFn : List (TreeValue β) → List (TreeValue β)) (inter : β → β → Bool)
    (w : CollideWorld β) (tree : List (TreeValue β)) (c0 : List ContactSet)
    (rf : ResolveFn ρ α) (evs : List ContactEvent) (s : SolverState ρ α) :
    ((∃ pr ∈ candidatePairs broad w tree inter,
        ¬(candOk w pr.1 = true ∧ candOk w pr.2 = true)) →
      runSpatial (some nf) broad reindexFn inter w tree c0 = Except.error ()) ∧
    ((∀ pr ∈ candidatePairs broad w tree inter,
        candOk w pr.1 = true ∧ candOk w pr.2 = true) →
      ∃ out, runSpatial (some nf) broad reindexFn inter w tree c0 =
        Except.ok out) ∧
    ((∃ c ∈ evs, eventOk s c = false) →
      contact_resolution rf evs s = Except.error ()) ∧
    ((∀ c ∈ evs, eventOk s c = true) →
      ∃ s', contact_resolution rf evs s = Except.ok s') ∧
    (∃ out, runSpatial none broad reindexFn inter w tree c0 = Except.ok out) := by
  refine ⟨?_, ?_, ?_, ?_, ?_⟩
  · rintro ⟨pr, hpr, hmiss⟩
    have herr := narrowPass_error_of_missing nf w
      (candidatePairs broad w tree inter) [] pr hpr hmiss
    simp only [runSpatial]
    rw [herr]
    rfl
  · intro hall
    obtain ⟨cs, hcs⟩ := narrowPass_ok_of_all nf w
      (candidatePairs broad w tree inter) [] hall
    refine ⟨(cs, match broad with | some _ => reindexFn tree | none => tree), ?_⟩
    simp only [runSpatial]
    rw [hcs]
    cases broad <;> rfl
  · rintro ⟨c, hc, hmiss⟩
    exact contact_resolution_err rf evs s c hc hmiss
  · intro hall
    exact contact_resolution_ok rf evs s hall
  · cases broad with
    | none => exact ⟨_, rfl⟩
    | some bf => exact ⟨_, rfl⟩

/-- C8 amended witness: with a narrow phase configured, a candidate pair of
component-less entities makes the run abort. -/
theorem C8_fatal_aborts_witness :
    runSpatial (β := Nat) (some fun _ _ _ _ _ _ => none)
        (some fun _ => [(1, 2)]) (fun t => t) (fun _ _ => true)
        ⟨[], fun _ => none, fun _ => none⟩ [] [] = Except.error () :=
  (C8_fatal_aborts (ρ := Unit) (α := Unit) (fun _ _ _ _ _ _ => none)
      (some fun _ => [(1, 2)]) (fun t => t) (fun _ _ => true)
      ⟨[], fun _ => none, fun _ => none⟩ [] []
      (fun _ _ _ => (⟨none, none⟩, ⟨none, none⟩)) []
      ⟨fun _ => none, fun _ => none, fun _ => none, fun _ => none,
       fun _ => none, fun _ => none, fun _ => none⟩).1
    ⟨(1, 2), by decide, by decide⟩

/-! ## Claim C9 -/

/-- C9: when the consumer cursor has lagged past the retention window, the
lossy read skips exactly the dropped entries and returns the surviving ones, a
loss diagnostic is emitted, and — the surviving events being resolvable — the
solver tick completes without aborting, processing exactly the surviving
events. -/
theorem C9_lossy_read_continues {ρ α : Type} (rf : ResolveFn ρ α) (dt : ℚ)
    (el : List Nat) (ch : EventChannel ContactEvent) (cursor : Nat)
    (s : SolverState ρ α) (hlag : cursor < ch.oldest)
    (hall : ∀ c ∈ ch.events.drop ch.oldest, eventOk s c = true) :
    (lossy_read ch cursor).1 = ch.events.drop ch.oldest ∧
    (lossy_read ch cursor).2.2 = true ∧
    ∃ s1, contact_resolution rf (lossy_read ch cursor).1 s = Except.ok s1 ∧
      solverRun rf dt el ch cursor s =
        Except.ok (compute_next_frame dt el (update_current_frame el s1),
          ch.events.length, true) := by
  have h1 : lossy_read ch cursor =
      (ch.events.drop ch.oldest, ch.events.length, true) := by
    simp [lossy_read, hlag]
  refine ⟨by rw [h1], by rw [h1], ?_⟩
  obtain ⟨s1, hs1⟩ := contact_resolution_ok rf (lossy_read ch cursor).1 s
    (by rw [h1]; exact hall)
  refine ⟨s1, hs1, ?_⟩
  simp only [solverRun]
  rw [hs1, h1]

/-- C9 witness: a channel whose retention starts at index 1 with a consumer
cursor at 0: the read survives only the second event and reports the loss. -/
theorem C9_lossy_read_continues_witness :
    (lossy_read (⟨[⟨(1, 2), 1, 0⟩, ⟨(1, 2), 2, 0⟩], 1⟩ :
          EventChannel ContactEvent) 0).1 =
      [⟨(1, 2), 1, 0⟩, ⟨(1, 2), 2, 0⟩].drop 1 ∧
    (lossy_read (⟨[⟨(1, 2), 1, 0⟩, ⟨(1, 2), 2, 0⟩], 1⟩ :
          EventChannel ContactEvent) 0).2.2 = true :=
  ⟨(C9_lossy_read_continues (ρ := Unit) (α := Unit)
      (fun _ _ _ => (⟨none, none⟩, ⟨none, none⟩)) 1 []
      ⟨[⟨(1, 2), 1, 0⟩, ⟨(1, 2), 2, 0⟩], 1⟩ 0
      ⟨fun k => if k = 1 ∨ k = 2 then some ⟨1⟩ else none,
       fun k => if k = 1 ∨ k = 2 then some ⟨⟨0, 0⟩⟩ else none,
       fun _ => none, fun _ => none,
       fun k => if k = 1 ∨ k = 2 then some ⟨0, ()⟩ else none,
       fun _ => none, fun _ => none⟩ (by decide) (by decide)).1,
    (C9_lossy_read_continues (ρ := Unit) (α := Unit)
      (fun _ _ _ => (⟨none, none⟩, ⟨none, none⟩)) 1 []
      ⟨[⟨(1, 2), 1, 0⟩, ⟨(1, 2), 2, 0⟩], 1⟩ 0
      ⟨fun k => if k = 1 ∨ k = 2 then some ⟨1⟩ else none,
       fun k => if k = 1 ∨ k = 2 then some ⟨⟨0, 0⟩⟩ else none,
       fun _ => none, fun _ => none,
       fun k => if k = 1 ∨ k = 2 then some ⟨0, ()⟩ else none,
       fun _ => none, fun _ => none⟩ (by decide) (by decide)).2.1⟩

end Rhusics
